import Mathlib

/-!
Shallow embedding of the paperspace-civitai-downloader repository
(src/download_history.py, src/url_parser.py, src/downloader.py,
src/model_metadata_scanner.py, src/model_type_classifier.py),
together with theorems settling the specification claims about it.

Conventions:
* Python strings are Lean `String`s; byte strings are `List Nat`.
* Python truthiness of a string is non-emptiness; of an int, being non-zero;
  of an `Option`, being `some` of a truthy value where the code relies on it.
* Fallible Python code (code that may raise) is embedded with `Except`;
  a `try/except` block is embedded by matching on the `Except` value.
* The CSV layer is modelled at row granularity: the csv module round-trips
  a written row to the same list of fields, so a ledger file is a
  `List DownloadRecord` (the header row is constant and kept implicit).
-/

/-! ## Ledger: src/download_history.py -/

/-- One row of the download-history CSV, in the order of `CSV_HEADERS`
(`timestamp, model_type, url, filename, model_id, version_id, file_size,
file_size_bytes`).  `csv.DictReader` yields exactly these eight string
fields for each well-formed row. -/
structure DownloadRecord where
  timestamp : String
  model_type : String
  url : String
  filename : String
  model_id : String
  version_id : String
  file_size : String
  file_size_bytes : String
deriving DecidableEq, Repr

/-- Exact rational rounding to hundredths (model of the `%.2f` rounding of
`_format_file_size`; binary-float rounding is modelled by exact rational
round-half-even). -/
def formatFixed2 (q : ℚ) : String :=
  let m : ℚ := q * 100
  let f : ℤ := ⌊m⌋
  let frac : ℚ := m - f
  let c : ℤ :=
    if frac > 1/2 then f + 1
    else if frac < 1/2 then f
    else if f % 2 = 0 then f else f + 1
  let n := c.toNat
  toString (n / 100) ++ "." ++
    (if n % 100 < 10 then "0" else "") ++ toString (n % 100)

/-- `DownloadHistoryManager._format_file_size`: repeatedly divide by 1024
through the unit list `B, KB, MB, GB, TB`, else print in PB. -/
def format_file_size_aux : List String → ℚ → String
  | [], q => formatFixed2 q ++ " PB"
  | u :: us, q =>
    if q < 1024 then formatFixed2 q ++ " " ++ u
    else format_file_size_aux us (q / 1024)

/-- `DownloadHistoryManager._format_file_size` on a byte count. -/
def format_file_size (size_bytes : ℕ) : String :=
  format_file_size_aux ["B", "KB", "MB", "GB", "TB"] (size_bytes : ℚ)

/-- The arguments of `DownloadHistoryManager.record_download`, plus the
timestamp that `datetime.now()` produces at call time. -/
structure DownloadInput where
  timestamp : String
  url : String
  model_type : String
  filename : String
  model_id : Option ℕ
  version_id : Option ℕ
  file_size : Option ℕ
deriving DecidableEq, Repr

/-- Python truthiness of an `Optional[int]`: `some n` with `n ≠ 0`. -/
def optIntTruthy : Option ℕ → Bool
  | some n => n ≠ 0
  | none => false

/-- `str(x) if x else ""` for an `Optional[int]` argument. -/
def optIntStr (x : Option ℕ) : String :=
  if optIntTruthy x then toString (x.getD 0) else ""

/-- The `row_data` list built by `record_download` (lines 75-84 of
src/download_history.py), as a `DownloadRecord`. -/
def record_download_row (inp : DownloadInput) : DownloadRecord where
  timestamp := inp.timestamp
  model_type := inp.model_type
  url := inp.url
  filename := inp.filename
  model_id := optIntStr inp.model_id
  version_id := optIntStr inp.version_id
  file_size :=
    if optIntTruthy inp.file_size then format_file_size (inp.file_size.getD 0)
    else "Unknown"
  file_size_bytes :=
    if optIntTruthy inp.file_size then toString (inp.file_size.getD 0) else ""

/-- Outcome of the `open(..., 'a')`/`writer.writerow` call inside
`record_download`'s `try` block. -/
inductive WriteOutcome where
  | ok
  | failure (msg : String)
deriving DecidableEq, Repr

/-- The append that `record_download` attempts: on success the row is
appended to the ledger, on an I/O failure it raises. -/
def appendRow (w : WriteOutcome) (ledger : List DownloadRecord)
    (row : DownloadRecord) : Except String (List DownloadRecord) :=
  match w with
  | .ok => .ok (ledger ++ [row])
  | .failure msg => .error msg

/-- `DownloadHistoryManager.record_download` (lines 49-93): builds the row,
tries to append it, and catches every exception (printing a warning and
returning normally).  The result is the ledger state after the call; the
`Except` layer being always `.ok` embeds "no exception reaches the caller". -/
def record_download (w : WriteOutcome) (ledger : List DownloadRecord)
    (inp : DownloadInput) : Except String (List DownloadRecord) :=
  match appendRow w ledger (record_download_row inp) with
  | .ok ledger' => .ok ledger'
  | .error _ => .ok ledger

/-- `DownloadHistoryManager._remove_duplicates` (lines 111-141), with the
`seen` set modelled as a list of strings.  The key is the f-string
`f"{model_id}_{version_id}"`; a record with both ids non-empty is kept iff
that key is fresh, a record with an empty id is kept iff its URL is
non-empty and fresh, and only kept records add their key to `seen`. -/
def remove_duplicates_aux : List DownloadRecord → List String → List DownloadRecord
  | [], _ => []
  | d :: rest, seen =>
    if d.model_id ++ "_" ++ d.version_id ∉ seen ∧ d.model_id ≠ "" ∧ d.version_id ≠ "" then
      d :: remove_duplicates_aux rest ((d.model_id ++ "_" ++ d.version_id) :: seen)
    else if d.model_id = "" ∨ d.version_id = "" then
      if d.url ≠ "" ∧ d.url ∉ seen then
        d :: remove_duplicates_aux rest (d.url :: seen)
      else
        remove_duplicates_aux rest seen
    else
      remove_duplicates_aux rest seen

/-- `DownloadHistoryManager._remove_duplicates` with the initially empty
`seen` set. -/
def remove_duplicates (downloads : List DownloadRecord) : List DownloadRecord :=
  remove_duplicates_aux downloads []

/-- Outcome of reading the history file in `get_all_downloads` /
`get_recent_downloads` / `clean_duplicates`. -/
inductive ReadOutcome where
  | missing
  | failure (msg : String)
  | ok
deriving DecidableEq, Repr

/-- `DownloadHistoryManager.get_all_downloads` (lines 167-190): `[]` when
the file is missing, `[]` when reading raises (caught), otherwise the rows,
deduplicated when requested.  Always returns normally. -/
def get_all_downloads (o : ReadOutcome) (ledger : List DownloadRecord)
    (removeDups : Bool) : List DownloadRecord :=
  match o with
  | .missing => []
  | .failure _ => []
  | .ok => if removeDups then remove_duplicates ledger else ledger

/-- The on-disk state that `clean_duplicates` manipulates: the live history
file and the `.backup` file (at row granularity). -/
structure LedgerState where
  live : List DownloadRecord
  backup : Option (List DownloadRecord)
deriving DecidableEq, Repr

/-- `DownloadHistoryManager.clean_duplicates` (lines 270-317), file present
and readable: read the rows, deduplicate, and when some rows were removed
first write the backup (header plus all original rows) and then rewrite the
live file with the deduplicated rows; return the number removed. -/
def clean_duplicates (st : LedgerState) : ℕ × LedgerState :=
  let originals := st.live
  let uniques := remove_duplicates originals
  let removed := originals.length - uniques.length
  if removed > 0 then
    (removed, { live := uniques, backup := some originals })
  else
    (removed, st)

/-! ### The dedup rule stated spec-side

`pyKey` and `dedupSpec` give the clean first-occurrence reading of the
code's rule: every record has one key string — the `model_id ++ "_" ++
version_id` pair-key when both ids are non-empty, else its URL — all keys
live in a single shared namespace, a record is kept iff its key is
non-empty and no earlier record (kept or dropped) has the same key. -/

/-- The identity key that `_remove_duplicates` effectively assigns to a
record. -/
def pyKey (d : DownloadRecord) : String :=
  if d.model_id ≠ "" ∧ d.version_id ≠ "" then d.model_id ++ "_" ++ d.version_id
  else d.url

/-- First-occurrence filter by `pyKey` over a shared key namespace;
`prior` collects the keys of all records already processed. -/
def dedupSpec_aux : List DownloadRecord → List String → List DownloadRecord
  | [], _ => []
  | d :: rest, prior =>
    if pyKey d ≠ "" ∧ pyKey d ∉ prior then
      d :: dedupSpec_aux rest (pyKey d :: prior)
    else
      dedupSpec_aux rest (pyKey d :: prior)

/-- First-occurrence-per-nonempty-key reading of the dedup rule. -/
def dedupSpec (downloads : List DownloadRecord) : List DownloadRecord :=
  dedupSpec_aux downloads []

/-- An identity class as claim C3 describes it: either a
`(model_id, version_id)` pair or a URL, the two kinds being distinct. -/
inductive IdentityClass where
  | byIds (model_id version_id : String)
  | byUrl (url : String)
deriving DecidableEq, Repr

/-- The dedup rule exactly as claim C3 words it: a record's identity is the
`(model_id, version_id)` pair when both are non-empty and otherwise its
URL. -/
def claimIdentity (d : DownloadRecord) : IdentityClass :=
  if d.model_id ≠ "" ∧ d.version_id ≠ "" then .byIds d.model_id d.version_id
  else .byUrl d.url

/-- First-occurrence filter by `claimIdentity`, as claim C3 describes the
dedup listing. -/
def claimDedup_aux : List DownloadRecord → List IdentityClass →
    List DownloadRecord
  | [], _ => []
  | d :: rest, prior =>
    if (claimIdentity d ∈ prior : Prop) then
      claimDedup_aux rest (claimIdentity d :: prior)
    else
      d :: claimDedup_aux rest (claimIdentity d :: prior)

/-- The listing claim C3 asserts. -/
def claimDedup (downloads : List DownloadRecord) : List DownloadRecord :=
  claimDedup_aux downloads []

/-! ## URL parser: src/url_parser.py

`CivitaiURLParser.parse_url` calls `urllib.parse.urlparse`, searches the
path for the regex `/models/(\d+)`, and reads `modelVersionId` out of the
query string via `urllib.parse.parse_qs`.  The stdlib pieces are embedded
below on `List Char`:
* `urlsplitModel` follows CPython's `urlsplit`: strip a valid scheme,
  split off the authority after a leading `//` (raising `Invalid IPv6 URL`
  on mismatched square brackets), then split off fragment and query.
  Percent-decoding is modelled as the identity (faithful for inputs
  without percent escapes); the control-character stripping of recent
  CPython releases is not modelled.
* `parseQsl` follows `parse_qs` with its defaults: split on `&`, drop
  parts without `=` or with an empty value, replace `+` by space.
* `pyInt?` models `int(str)`: surrounding whitespace, an optional sign,
  then decimal digits (digit-group underscores are not modelled). -/

/-- `pat` is a leading pattern of `s`. -/
def listStartsWith : List Char → List Char → Bool
  | [], _ => true
  | _ :: _, [] => false
  | p :: ps, c :: cs => p = c && listStartsWith ps cs

/-- Split at the first character satisfying `p`: the part before it and,
when found, the part after it (the matching character dropped). -/
def splitAtFirstChar (p : Char → Bool) : List Char → List Char × Option (List Char)
  | [] => ([], none)
  | c :: cs =>
    if p c then ([], some cs)
    else
      match splitAtFirstChar p cs with
      | (pre, rest) => (c :: pre, rest)

/-- Longest leading run satisfying `p`, and the remainder. -/
def spanUntil (p : Char → Bool) : List Char → List Char × List Char
  | [] => ([], [])
  | c :: cs =>
    if p c then ([], c :: cs)
    else
      match spanUntil p cs with
      | (a, b) => (c :: a, b)

/-- CPython scheme characters: ASCII letters, digits, `+`, `-`, `.`
(first character must be a letter). -/
def isSchemeChar (c : Char) : Bool :=
  c.isAlpha || c.isDigit || c = '+' || c = '-' || c = '.'

/-- A non-empty candidate scheme: letter first, scheme characters after. -/
def validScheme : List Char → Bool
  | [] => false
  | c :: cs => c.isAlpha && cs.all isSchemeChar

/-- Strip `scheme:` when the text before the first `:` is a valid scheme;
otherwise leave the URL untouched (CPython keeps the whole string). -/
def stripScheme (s : List Char) : List Char :=
  match splitAtFirstChar (· = ':') s with
  | (pre, some rest) => if validScheme pre then rest else s
  | (_, none) => s

/-- After the scheme: the netloc (authority) when the remainder starts with
`//` — delimited by the first `/`, `?` or `#` — and the rest. -/
def netlocSplit (s : List Char) : List Char × List Char :=
  if listStartsWith ['/', '/'] s then
    spanUntil (fun c => c = '/' || c = '?' || c = '#') (s.drop 2)
  else ([], s)

/-- CPython's `Invalid IPv6 URL` condition on the netloc: exactly one of
`[`, `]` occurs. -/
def badBrackets (netloc : List Char) : Bool :=
  (netloc.contains '[' && !netloc.contains ']') ||
  (netloc.contains ']' && !netloc.contains '[')

/-- `urllib.parse.urlparse`, restricted to the two components `parse_url`
reads: the path and the query.  Raises exactly on the mismatched-bracket
authority check. -/
def urlsplitModel (s : List Char) : Except String (List Char × List Char) :=
  match netlocSplit (stripScheme s) with
  | (netloc, rest) =>
    if badBrackets netloc then .error "Invalid IPv6 URL"
    else
      match splitAtFirstChar (· = '#') rest with
      | (beforeFrag, _) =>
        match splitAtFirstChar (· = '?') beforeFrag with
        | (path, queryOpt) => .ok (path, queryOpt.getD [])

/-- Longest leading digit run and the remainder. -/
def takeDigits : List Char → List Char × List Char
  | [] => ([], [])
  | c :: cs =>
    if c.isDigit then
      match takeDigits cs with
      | (ds, r) => (c :: ds, r)
    else ([], c :: cs)

/-- The regex `/models/(\d+)` anchored at the start of `s`: the captured
digit run, if any. -/
def matchModelsAt (s : List Char) : Option (List Char) :=
  if listStartsWith "/models/".data s then
    match takeDigits (s.drop 8) with
    | ([], _) => none
    | (ds, _) => some ds
  else none

/-- `re.search(r'/models/(\d+)', path)`: first match anywhere in the
path, scanning left to right. -/
def findModels : List Char → Option (List Char)
  | [] => none
  | c :: cs =>
    match matchModelsAt (c :: cs) with
    | some ds => some ds
    | none => findModels cs

/-- Numeric value of a digit string (most significant first). -/
def natOfDigits (ds : List Char) : ℕ :=
  ds.foldl (fun acc c => 10 * acc + (c.toNat - 48)) 0

/-- Python `str.split(sep)` on a single separator character. -/
def splitOn (sep : Char) : List Char → List (List Char)
  | [] => [[]]
  | c :: cs =>
    if c = sep then [] :: splitOn sep cs
    else
      match splitOn sep cs with
      | [] => [[c]]
      | g :: gs => (c :: g) :: gs

/-- `parse_qsl`'s `+`-to-space replacement (percent-decoding modelled as
the identity). -/
def plusToSpace (s : List Char) : List Char :=
  s.map (fun c => if c = '+' then ' ' else c)

/-- One `name=value` part of a query string under `parse_qs` defaults:
empty parts, parts without `=` and parts with an empty value are dropped. -/
def qslPart (part : List Char) : Option (List Char × List Char) :=
  if part.isEmpty then none
  else
    match splitAtFirstChar (· = '=') part with
    | (_, none) => none
    | (name, some value) =>
      if value.isEmpty then none
      else some (plusToSpace name, plusToSpace value)

/-- `urllib.parse.parse_qs` as the ordered list of kept `name=value`
pairs. -/
def parseQsl (qs : List Char) : List (List Char × List Char) :=
  (splitOn '&' qs).filterMap qslPart

/-- `query_params['modelVersionId'][0]`: the first value recorded for a
name (dict insertion order). -/
def lookupFirstValue (name : List Char) : List (List Char × List Char) → Option (List Char)
  | [] => none
  | (n, v) :: rest => if n = name then some v else lookupFirstValue name rest

/-- Python whitespace accepted by `int(str)`. -/
def isPyWs (c : Char) : Bool := c.isWhitespace

/-- Strip leading and trailing whitespace. -/
def stripWs (s : List Char) : List Char :=
  ((s.dropWhile isPyWs).reverse.dropWhile isPyWs).reverse

/-- `int(str)` returning `none` where Python raises `ValueError`. -/
def pyIntOfChars (s : List Char) : Option ℤ :=
  match stripWs s with
  | [] => none
  | c :: ds =>
    if c = '+' then
      if !ds.isEmpty && ds.all Char.isDigit then some ((natOfDigits ds : ℕ) : ℤ)
      else none
    else if c = '-' then
      if !ds.isEmpty && ds.all Char.isDigit then some (-((natOfDigits ds : ℕ) : ℤ))
      else none
    else
      if (c :: ds).all Char.isDigit then some ((natOfDigits (c :: ds) : ℕ) : ℤ)
      else none

/-- Lines 39-45 of src/url_parser.py: look up `modelVersionId` in the
parsed query parameters and `int` its first value, swallowing the
`ValueError`/`IndexError` into `None`. -/
def queryVersion (query : List Char) : Option ℤ :=
  match lookupFirstValue "modelVersionId".data (parseQsl query) with
  | some v => pyIntOfChars v
  | none => none

/-- `CivitaiURLParser.parse_url` (src/url_parser.py lines 16-50): parse the
URL, regex-search the path for a model id, read `modelVersionId` from the
query (`int` failures swallowed), and wrap any `urlparse` exception into
the `Invalid Civitai URL` `ValueError`. -/
def parse_url (url : String) : Except String (Option ℕ × Option ℤ) :=
  match urlsplitModel url.data with
  | .error e => .error ("Invalid Civitai URL: " ++ url ++ ". Error: " ++ e)
  | .ok (path, query) =>
    .ok (Option.map natOfDigits (findModels path), queryVersion query)

/-! ## Transfer engine: src/downloader.py, `CivitaiDownloader.download_file` -/

/-- The HTTP response the server gives to the (possibly ranged) GET:
status, the `content-length` header as parsed by `int(... or 0)`, and the
full byte stream of the body (the chunks of `iter_chunked` concatenated in
receipt order). -/
structure HttpResponse where
  status : ℕ
  contentLength : ℕ
  body : List ℕ
deriving DecidableEq, Repr

/-- The slice of the filesystem `download_file` touches: the contents of
`save_path + ".part"` and of `save_path`, when those files exist. -/
structure FsState where
  part : Option (List ℕ)
  finalFile : Option (List ℕ)
deriving DecidableEq, Repr

/-- Result of one `download_file` call: the returned
`(success, error-message)` pair, the filesystem afterwards, the `Range`
offset requested (when a `.part` file existed), and the `total_size` the
engine computed. -/
structure DownloadOutcome where
  success : Bool
  errMsg : Option String
  fs : FsState
  rangeOffset : Option ℕ
  totalSize : ℕ
deriving DecidableEq, Repr

/-- `CivitaiDownloader.download_file` (src/downloader.py lines 160-250):
take the existing `.part` size as the resume offset and request that byte
range; fail terminally on 401/403/404 and on any status outside
{200, 206}; on 206 the total is `content-length + offset`, on 200 it is
`content-length`; open the `.part` file in append mode iff the offset is
positive and stream the body into it; finally delete any stale file at
`save_path` and rename `.part` onto it. -/
def download_file (fs : FsState) (resp : HttpResponse) : DownloadOutcome :=
  let resume_offset := match fs.part with
    | some content => content.length
    | none => 0
  let range := if resume_offset > 0 then some resume_offset else none
  if resp.status = 401 then
    ⟨false, some "auth error: API key invalid or required", fs, range, 0⟩
  else if resp.status = 403 then
    ⟨false, some "access denied: possibly an Early Access model", fs, range, 0⟩
  else if resp.status = 404 then
    ⟨false, some "file not found", fs, range, 0⟩
  else if resp.status ≠ 200 ∧ resp.status ≠ 206 then
    ⟨false, some ("download failed, status " ++ toString resp.status), fs, range, 0⟩
  else
    let total_size :=
      if resp.status = 206 then resp.contentLength + resume_offset
      else resp.contentLength
    let initial := if resume_offset > 0 then fs.part.getD [] else []
    ⟨true, none, ⟨none, some (initial ++ resp.body)⟩, range, total_size⟩

/-! ## Metadata scanner: src/model_metadata_scanner.py -/

/-- What one attempt of the hash-lookup GET produces: a response with a
status, the parsed `Retry-After` header when present, and an abstract
payload (the JSON body, relevant only on 200), or an exception raised by
the network layer. -/
inductive ApiOutcome where
  | resp (status : ℕ) (retryAfter : Option ℤ) (payload : ℕ)
  | exn (msg : String)
deriving DecidableEq, Repr

/-- Observable events of `_search_civitai_api`: issuing the GET for an
attempt, and sleeping for a given number of seconds. -/
inductive SearchEvent where
  | request (attempt : ℕ)
  | sleep (seconds : ℚ)
deriving DecidableEq, Repr

/-- The retry loop of `ModelMetadataScanner._search_civitai_api`
(src/model_metadata_scanner.py lines 307-370), `max_retries = 3`,
`base_delay = 1.0`.  `resps` gives the outcome of the GET at each attempt
and `jitter` the value `random.uniform(0, 1)` draws; the result is the
returned value together with the request/sleep trace.  On 200 the
version info (abstracted to the payload) is returned (the nested
model-info enrichment does not alter control flow); 404 and 401 return
`None` immediately; 429 sleeps `min(Retry-After, 300)` (header default 60)
and retries; 500 sleeps `base_delay * 2^attempt + jitter` and retries; any
other status returns `None` immediately; an exception sleeps like 500 and
retries.  Retries stop after the third attempt. -/
def search_go (resps : ℕ → ApiOutcome) (jitter : ℕ → ℚ) :
    ℕ → ℕ → Option ℕ × List SearchEvent
  | 0, _ => (none, [])
  | fuel + 1, attempt =>
    match resps attempt with
    | .exn _ =>
      if attempt < 3 - 1 then
        match search_go resps jitter fuel (attempt + 1) with
        | (res, evs) =>
          (res, .request attempt :: .sleep (1 * 2 ^ attempt + jitter attempt) :: evs)
      else (none, [.request attempt])
    | .resp status retryAfter payload =>
      if status = 200 then (some payload, [.request attempt])
      else if status = 404 then (none, [.request attempt])
      else if status = 401 then (none, [.request attempt])
      else if status = 429 then
        if attempt < 3 - 1 then
          match search_go resps jitter fuel (attempt + 1) with
          | (res, evs) =>
            (res, .request attempt ::
              .sleep ((min (retryAfter.getD 60) 300 : ℤ) : ℚ) :: evs)
        else (none, [.request attempt])
      else if status = 500 then
        if attempt < 3 - 1 then
          match search_go resps jitter fuel (attempt + 1) with
          | (res, evs) =>
            (res, .request attempt :: .sleep (1 * 2 ^ attempt + jitter attempt) :: evs)
        else (none, [.request attempt])
      else (none, [.request attempt])

/-- `ModelMetadataScanner._search_civitai_api`: the loop entered with
attempt 0 and fuel for the `range(max_retries)` iterations. -/
def search_civitai_api (resps : ℕ → ApiOutcome) (jitter : ℕ → ℚ) :
    Option ℕ × List SearchEvent :=
  search_go resps jitter 3 0

/-! ## Type classification: src/model_type_classifier.py and the
scanner's API-type override -/

/-- ASCII model of Python `str.lower` on one character (all type strings
involved are ASCII). -/
def pyLowerChar (c : Char) : Char :=
  if 65 ≤ c.toNat ∧ c.toNat ≤ 90 then Char.ofNat (c.toNat + 32) else c

/-- ASCII model of Python `str.upper` on one character. -/
def pyUpperChar (c : Char) : Char :=
  if 97 ≤ c.toNat ∧ c.toNat ≤ 122 then Char.ofNat (c.toNat - 32) else c

/-- Python `str.lower` (ASCII model). -/
def pyLower (s : String) : String := ⟨s.data.map pyLowerChar⟩

/-- Python `str.upper` (ASCII model). -/
def pyUpper (s : String) : String := ⟨s.data.map pyUpperChar⟩

/-- `ModelTypeClassifier.classify_from_metadata`
(src/model_type_classifier.py lines 28-57) on the
`version_info['model']['type']` field (`none` when the nested field is
missing): lower-case, then `checkpoint` → checkpoint, the
`VALID_LORA_TYPES` `lora`/`locon`/`dora` → lora, `textualinversion` →
embedding, anything else unsupported.  Reason strings abbreviated. -/
def classify_from_metadata (modelType : Option String) : Option String × String :=
  if pyLower (modelType.getD "") = "" then
    (none, "model type information not found")
  else if pyLower (modelType.getD "") = "checkpoint" then
    (some "checkpoint", "from API: checkpoint")
  else if pyLower (modelType.getD "") = "lora" ∨ pyLower (modelType.getD "") = "locon"
      ∨ pyLower (modelType.getD "") = "dora" then
    (some "lora", "from API: LoRA family")
  else if pyLower (modelType.getD "") = "textualinversion" then
    (some "embedding", "from API: textualinversion")
  else
    (none, "unsupported model type: " ++ pyLower (modelType.getD ""))

/-- The scanner's `type_mapping` dict
(src/model_metadata_scanner.py lines 230-235). -/
def API_TYPE_MAPPING : List (String × String) :=
  [("LORA", "lora"), ("LOCON", "lora"), ("CHECKPOINT", "checkpoint"),
   ("TEXTUALINVERSION", "embedding")]

/-- `ModelMetadataScanner._detect_model_type_from_api` (lines 212-238):
upper-case the provider type, `('unknown', '')` when empty, then
`type_mapping.get(api_type, 'unknown')`. -/
def detect_model_type_from_api (modelType : Option String) : String × String :=
  if pyUpper (modelType.getD "") = "" then ("unknown", "")
  else
    match API_TYPE_MAPPING.lookup (pyUpper (modelType.getD "")) with
    | some t => (t, pyUpper (modelType.getD ""))
    | none => ("unknown", pyUpper (modelType.getD ""))

/-- The category-override step of `ModelMetadataScanner.scan_model_file`
(lines 527-532): once provider data is obtained, replace the
heuristic-derived category by the API-derived one unless the latter is
`'unknown'`. -/
def scan_apply_api_type (heuristic : String) (modelType : Option String) : String :=
  match detect_model_type_from_api modelType with
  | (api_model_type, _) =>
    if api_model_type ≠ "unknown" then api_model_type else heuristic

/-- Per-file outcome of `ModelMetadataScanner.scan_model_file` as
`scan_directory` observes it: metadata returned (abstracted to a tag),
`None` returned (missing file, unsupported extension, empty hash — all
handled inside), or an exception escaping it. -/
inductive ScanFileOutcome where
  | found (meta : ℕ)
  | skipped
  | raised (msg : String)
deriving DecidableEq, Repr

/-- One directory entry `os.walk`/`os.listdir` yields: its extension (as
`os.path.splitext` returns it) and what scanning it would produce. -/
structure ScanFile where
  ext : String
  outcome : ScanFileOutcome
deriving DecidableEq, Repr

/-- `self.supported_extensions` (lines 105-107). -/
def supported_extensions : List String :=
  [".safetensors", ".ckpt", ".pt", ".pth", ".bin"]

/-- The `ext.lower() in self.supported_extensions` filter. -/
def extSupported (f : ScanFile) : Bool :=
  supported_extensions.contains (pyLower f.ext)

/-- The scan loop of `ModelMetadataScanner.scan_directory` (lines 564-604)
over the matching files, inside the single `try` that wraps the whole
walk: collect metadata of supported files in order; an exception escaping
`scan_model_file` leaves the loop and is caught by the outer `except`.
Returns the collected metadata, the number of `scan_model_file` calls
made, and the caught exception, if any. -/
def scan_directory_go : List ScanFile → List ℕ × ℕ × Option String
  | [] => ([], 0, none)
  | f :: rest =>
    if extSupported f then
      match f.outcome with
      | .found m =>
        match scan_directory_go rest with
        | (ms, n, e) => (m :: ms, n + 1, e)
      | .skipped =>
        match scan_directory_go rest with
        | (ms, n, e) => (ms, n + 1, e)
      | .raised msg => ([], 1, some msg)
    else scan_directory_go rest

/-- `ModelMetadataScanner.scan_directory`: the metadata list the caller
receives (the caught exception only logs), plus the attempt count. -/
def scan_directory (files : List ScanFile) : List ℕ × ℕ :=
  match scan_directory_go files with
  | (ms, n, _) => (ms, n)

/-! ## Remaining definitions used by the theorems -/

/-- A record the dedup rule assigns an empty key: an empty id and an empty
URL. -/
def keylessB (d : DownloadRecord) : Bool :=
  (d.model_id = "" || d.version_id = "") && d.url = ""

/-- A sequence of successful `record_download` calls. -/
def record_many : List DownloadRecord → List DownloadInput → List DownloadRecord
  | ledger, [] => ledger
  | ledger, inp :: rest =>
    match record_download .ok ledger inp with
    | .ok ledger' => record_many ledger' rest
    | .error _ => record_many ledger rest

/-- Sample record with empty ids and empty URL. -/
def recKeyless : DownloadRecord := ⟨"t0", "lora", "", "f0", "", "", "", ""⟩

/-- Sample record with a non-empty id pair. -/
def recPair1 : DownloadRecord :=
  ⟨"t1", "lora", "u1", "f1", "649516", "726676", "1.00 KB", "1024"⟩

/-- Sample record with the same id pair as `recPair1` but different URL. -/
def recPair2 : DownloadRecord :=
  ⟨"t2", "lora", "u2", "f2", "649516", "726676", "1.00 KB", "1024"⟩

/-- Zero jitter, for concrete evaluations. -/
def jitterZero : ℕ → ℚ := fun _ => 0

/-- Attempt outcomes: a 503 first, then a would-be success — used to show
that a non-500 server error is not retried. -/
def respsC5 : ℕ → ApiOutcome
  | 0 => .resp 503 none 7
  | _ => .resp 200 none 9

/-- The metadata `scan_directory` would collect for one file: its tag when
the file is supported and scanning finds metadata, nothing otherwise. -/
def scanMeta (f : ScanFile) : Option ℕ :=
  if extSupported f then
    match f.outcome with
    | .found m => some m
    | _ => none
  else none

/-- Whether a per-file outcome is an escaping exception. -/
def isRaised : ScanFileOutcome → Bool
  | .raised _ => true
  | _ => false

/-- Attempt outcomes: every attempt answers 503. -/
def resps503 : ℕ → ApiOutcome := fun _ => .resp 503 none 7

/-! # Theorems

Lemmas shared between claims come first, then one theorem per claim
(plus its witness or counterexample). -/

/-- A pair key `model_id ++ "_" ++ version_id` is never the empty string. -/
theorem pairKey_ne_empty (a b : String) : a ++ "_" ++ b ≠ "" := by
  intro h
  have hlen := congrArg String.length h
  simp [String.length_append] at hlen
  exact absurd hlen.1.2 (by decide)


/-- Extending `prior` with a key that is already in `seen` (or is empty)
preserves the `seen`/`prior` agreement on non-empty keys. -/
theorem seenInv_cons_right (seen prior : List String) (key : String)
    (hinv : ∀ k, k ≠ "" → (k ∈ seen ↔ k ∈ prior))
    (hmem : key ≠ "" → key ∈ seen) :
    ∀ k, k ≠ "" → (k ∈ seen ↔ k ∈ key :: prior) := by
  intro k hk
  constructor
  · intro hs
    exact List.mem_cons_of_mem _ ((hinv k hk).1 hs)
  · intro hp
    rcases List.mem_cons.mp hp with h | h
    · exact (h ▸ hmem (h ▸ hk) : k ∈ seen)
    · exact (hinv k hk).2 h

/-- Extending both sides with the same key preserves the agreement. -/
theorem seenInv_cons_both (seen prior : List String) (key : String)
    (hinv : ∀ k, k ≠ "" → (k ∈ seen ↔ k ∈ prior)) :
    ∀ k, k ≠ "" → (k ∈ key :: seen ↔ k ∈ key :: prior) := by
  intro k hk
  simp only [List.mem_cons]
  exact or_congr Iff.rfl (hinv k hk)

/-- `_remove_duplicates` equals the first-occurrence-per-nonempty-key
filter, under the invariant that `seen` (keys of kept records) and `prior`
(keys of all processed records) agree on non-empty keys. -/
theorem remove_duplicates_aux_eq_dedupSpec_aux (ds : List DownloadRecord) :
    ∀ seen prior : List String,
      (∀ k, k ≠ "" → (k ∈ seen ↔ k ∈ prior)) →
      remove_duplicates_aux ds seen = dedupSpec_aux ds prior := by
  induction ds with
  | nil => intro seen prior _; rfl
  | cons d rest ih =>
    intro seen prior hinv
    by_cases hmv : d.model_id ≠ "" ∧ d.version_id ≠ ""
    · have hkey : pyKey d = d.model_id ++ "_" ++ d.version_id := by
        simp [pyKey, hmv.1, hmv.2]
      have hkne : d.model_id ++ "_" ++ d.version_id ≠ "" := pairKey_ne_empty _ _
      have hnc2 : ¬(d.model_id = "" ∨ d.version_id = "") := by
        rintro (h | h)
        · exact hmv.1 h
        · exact hmv.2 h
      by_cases hk : d.model_id ++ "_" ++ d.version_id ∈ seen
      · have hkp : pyKey d ∈ prior := hkey ▸ ((hinv _ hkne).1 hk)
        have e1 : remove_duplicates_aux (d :: rest) seen
            = remove_duplicates_aux rest seen := by
          simp only [remove_duplicates_aux]
          rw [if_neg (fun c => c.1 hk), if_neg hnc2]
        have e2 : dedupSpec_aux (d :: rest) prior
            = dedupSpec_aux rest (pyKey d :: prior) := by
          simp only [dedupSpec_aux]
          rw [if_neg (fun c => c.2 hkp)]
        rw [e1, e2]
        exact ih seen (pyKey d :: prior)
          (seenInv_cons_right seen prior (pyKey d) hinv (fun _ => hkey ▸ hk))
      · have hkp : pyKey d ∉ prior := fun hp => hk ((hinv _ hkne).2 (hkey ▸ hp))
        have e1 : remove_duplicates_aux (d :: rest) seen
            = d :: remove_duplicates_aux rest
                ((d.model_id ++ "_" ++ d.version_id) :: seen) := by
          simp only [remove_duplicates_aux]
          rw [if_pos ⟨hk, hmv.1, hmv.2⟩]
        have e2 : dedupSpec_aux (d :: rest) prior
            = d :: dedupSpec_aux rest (pyKey d :: prior) := by
          simp only [dedupSpec_aux]
          rw [if_pos ⟨hkey ▸ hkne, hkp⟩]
        rw [e1, e2, hkey]
        exact congrArg _ (ih _ _
          (hkey ▸ seenInv_cons_both seen prior (pyKey d) hinv))
    · have hc2 : d.model_id = "" ∨ d.version_id = "" := by
        by_cases h1 : d.model_id = ""
        · exact Or.inl h1
        · refine Or.inr ?_
          by_contra h2
          exact hmv ⟨h1, h2⟩
      have hkey : pyKey d = d.url := by simp [pyKey, hmv]
      have hnc1 : ¬(d.model_id ++ "_" ++ d.version_id ∉ seen
          ∧ d.model_id ≠ "" ∧ d.version_id ≠ "") :=
        fun c => hmv ⟨c.2.1, c.2.2⟩
      by_cases hu : d.url ≠ "" ∧ d.url ∉ seen
      · have hkp : pyKey d ∉ prior := by
          rw [hkey]
          exact fun hp => hu.2 ((hinv _ hu.1).2 hp)
        have e1 : remove_duplicates_aux (d :: rest) seen
            = d :: remove_duplicates_aux rest (d.url :: seen) := by
          simp only [remove_duplicates_aux]
          rw [if_neg hnc1, if_pos hc2, if_pos hu]
        have e2 : dedupSpec_aux (d :: rest) prior
            = d :: dedupSpec_aux rest (pyKey d :: prior) := by
          simp only [dedupSpec_aux]
          rw [if_pos ⟨hkey ▸ hu.1, hkp⟩]
        rw [e1, e2, hkey]
        exact congrArg _ (ih _ _
          (hkey ▸ seenInv_cons_both seen prior (pyKey d) hinv))
      · have e1 : remove_duplicates_aux (d :: rest) seen
            = remove_duplicates_aux rest seen := by
          simp only [remove_duplicates_aux]
          rw [if_neg hnc1, if_pos hc2, if_neg hu]
        have e2 : dedupSpec_aux (d :: rest) prior
            = dedupSpec_aux rest (pyKey d :: prior) := by
          simp only [dedupSpec_aux]
          refine if_neg ?_
          rintro ⟨hne, hnp⟩
          rw [hkey] at hne hnp
          by_cases hue : d.url = ""
          · exact hne hue
          · exact hu ⟨hue, fun hs => hnp ((hinv _ hue).1 hs)⟩
        rw [e1, e2]
        refine ih seen (pyKey d :: prior)
          (seenInv_cons_right seen prior (pyKey d) hinv ?_)
        intro hne
        rw [hkey] at hne ⊢
        by_contra hns
        exact hu ⟨hne, hns⟩

/-- Running `_remove_duplicates` a second time (from the same `seen` set)
changes nothing: its output has no duplicates under its own rule. -/
theorem remove_duplicates_aux_idem (ds : List DownloadRecord) :
    ∀ seen, remove_duplicates_aux (remove_duplicates_aux ds seen) seen
      = remove_duplicates_aux ds seen := by
  induction ds with
  | nil => intro _; rfl
  | cons d rest ih =>
    intro seen
    by_cases hc1 : d.model_id ++ "_" ++ d.version_id ∉ seen
        ∧ d.model_id ≠ "" ∧ d.version_id ≠ ""
    · have e1 : remove_duplicates_aux (d :: rest) seen
          = d :: remove_duplicates_aux rest
              ((d.model_id ++ "_" ++ d.version_id) :: seen) := by
        simp only [remove_duplicates_aux]
        rw [if_pos hc1]
      rw [e1]
      have e2 : remove_duplicates_aux
          (d :: remove_duplicates_aux rest
            ((d.model_id ++ "_" ++ d.version_id) :: seen)) seen
          = d :: remove_duplicates_aux
              (remove_duplicates_aux rest
                ((d.model_id ++ "_" ++ d.version_id) :: seen))
              ((d.model_id ++ "_" ++ d.version_id) :: seen) := by
        simp only [remove_duplicates_aux]
        rw [if_pos hc1]
      rw [e2, ih]
    · by_cases hc2 : d.model_id = "" ∨ d.version_id = ""
      · by_cases hc3 : d.url ≠ "" ∧ d.url ∉ seen
        · have e1 : remove_duplicates_aux (d :: rest) seen
              = d :: remove_duplicates_aux rest (d.url :: seen) := by
            simp only [remove_duplicates_aux]
            rw [if_neg hc1, if_pos hc2, if_pos hc3]
          rw [e1]
          have e2 : remove_duplicates_aux
              (d :: remove_duplicates_aux rest (d.url :: seen)) seen
              = d :: remove_duplicates_aux
                  (remove_duplicates_aux rest (d.url :: seen))
                  (d.url :: seen) := by
            simp only [remove_duplicates_aux]
            rw [if_neg hc1, if_pos hc2, if_pos hc3]
          rw [e2, ih]
        · have e1 : remove_duplicates_aux (d :: rest) seen
              = remove_duplicates_aux rest seen := by
            simp only [remove_duplicates_aux]
            rw [if_neg hc1, if_pos hc2, if_neg hc3]
          rw [e1, ih]
      · have e1 : remove_duplicates_aux (d :: rest) seen
            = remove_duplicates_aux rest seen := by
          simp only [remove_duplicates_aux]
          rw [if_neg hc1, if_neg hc2]
        rw [e1, ih]

/-- A record with an empty id and an empty URL is never kept by
`_remove_duplicates`. -/
theorem keyless_not_mem_remove_aux (d : DownloadRecord)
    (h1 : d.model_id = "" ∨ d.version_id = "") (h2 : d.url = "") :
    ∀ (ds : List DownloadRecord) (seen : List String),
      d ∉ remove_duplicates_aux ds seen := by
  intro ds
  induction ds with
  | nil =>
    intro seen h
    simp [remove_duplicates_aux] at h
  | cons e rest ih =>
    intro seen hmem
    by_cases hc1 : e.model_id ++ "_" ++ e.version_id ∉ seen
        ∧ e.model_id ≠ "" ∧ e.version_id ≠ ""
    · rw [show remove_duplicates_aux (e :: rest) seen
          = e :: remove_duplicates_aux rest
              ((e.model_id ++ "_" ++ e.version_id) :: seen) by
        simp only [remove_duplicates_aux]; rw [if_pos hc1]] at hmem
      rcases List.mem_cons.mp hmem with heq | hmem'
      · rcases h1 with h1 | h1
        · exact hc1.2.1 (heq ▸ h1)
        · exact hc1.2.2 (heq ▸ h1)
      · exact ih _ hmem'
    · by_cases hc2 : e.model_id = "" ∨ e.version_id = ""
      · by_cases hc3 : e.url ≠ "" ∧ e.url ∉ seen
        · rw [show remove_duplicates_aux (e :: rest) seen
              = e :: remove_duplicates_aux rest (e.url :: seen) by
            simp only [remove_duplicates_aux]
            rw [if_neg hc1, if_pos hc2, if_pos hc3]] at hmem
          rcases List.mem_cons.mp hmem with heq | hmem'
          · exact hc3.1 (heq ▸ h2)
          · exact ih _ hmem'
        · rw [show remove_duplicates_aux (e :: rest) seen
              = remove_duplicates_aux rest seen by
            simp only [remove_duplicates_aux]
            rw [if_neg hc1, if_pos hc2, if_neg hc3]] at hmem
          exact ih _ hmem
      · rw [show remove_duplicates_aux (e :: rest) seen
            = remove_duplicates_aux rest seen by
          simp only [remove_duplicates_aux]
          rw [if_neg hc1, if_neg hc2]] at hmem
        exact ih _ hmem

/-- Each record with an empty key accounts for one removed row: the kept
length plus the number of keyless records never exceeds the input
length. -/
theorem length_remove_aux_add_countP (ds : List DownloadRecord) :
    ∀ seen, (remove_duplicates_aux ds seen).length + ds.countP keylessB
      ≤ ds.length := by
  induction ds with
  | nil => intro _; simp [remove_duplicates_aux]
  | cons d rest ih =>
    intro seen
    rw [List.countP_cons]
    by_cases hc1 : d.model_id ++ "_" ++ d.version_id ∉ seen
        ∧ d.model_id ≠ "" ∧ d.version_id ≠ ""
    · have hkb : keylessB d = false := by
        simp [keylessB, hc1.2.1]
        intro h
        exact absurd h hc1.2.2
      rw [show remove_duplicates_aux (d :: rest) seen
          = d :: remove_duplicates_aux rest
              ((d.model_id ++ "_" ++ d.version_id) :: seen) by
        simp only [remove_duplicates_aux]; rw [if_pos hc1]]
      have := ih ((d.model_id ++ "_" ++ d.version_id) :: seen)
      simp only [List.length_cons, hkb, Bool.false_eq_true, if_false]
      omega
    · by_cases hc2 : d.model_id = "" ∨ d.version_id = ""
      · by_cases hc3 : d.url ≠ "" ∧ d.url ∉ seen
        · have hkb : keylessB d = false := by
            simp [keylessB, hc3.1]
          rw [show remove_duplicates_aux (d :: rest) seen
              = d :: remove_duplicates_aux rest (d.url :: seen) by
            simp only [remove_duplicates_aux]
            rw [if_neg hc1, if_pos hc2, if_pos hc3]]
          have := ih (d.url :: seen)
          simp only [List.length_cons, hkb, Bool.false_eq_true, if_false]
          omega
        · rw [show remove_duplicates_aux (d :: rest) seen
              = remove_duplicates_aux rest seen by
            simp only [remove_duplicates_aux]
            rw [if_neg hc1, if_pos hc2, if_neg hc3]]
          have := ih seen
          have hkb : (if keylessB d then 1 else 0) ≤ 1 := by
            split <;> omega
          simp only [List.length_cons]
          omega
      · rw [show remove_duplicates_aux (d :: rest) seen
            = remove_duplicates_aux rest seen by
          simp only [remove_duplicates_aux]
          rw [if_neg hc1, if_neg hc2]]
        have := ih seen
        have hkb : (if keylessB d then 1 else 0) ≤ 1 := by
          split <;> omega
        simp only [List.length_cons]
        omega

/-- `record_many` is plain appending of the built rows. -/
theorem record_many_eq (inps : List DownloadInput) :
    ∀ ledger, record_many ledger inps = ledger ++ inps.map record_download_row := by
  induction inps with
  | nil => intro ledger; simp [record_many]
  | cons inp rest ih =>
    intro ledger
    simp only [record_many, record_download, appendRow, List.map_cons]
    rw [ih]
    simp

/-- Claim C3, counterexample: a record with empty ids and an empty URL is
an identity class of its own under the claimed rule, so the claimed
listing keeps its first occurrence — but `_remove_duplicates` drops it
entirely, so dedup listing does not return the first occurrence of every
identity class. -/
theorem C3_counterexample :
    get_all_downloads .ok [recKeyless] true ≠ claimDedup [recKeyless] := by
  decide

/-- Claim C3 (amended): dedup listing keeps the first occurrence per key
in one shared key namespace — a record's key is the string
`model_id ++ "_" ++ version_id` when both ids are non-empty and its URL
otherwise, and records with an empty key are dropped entirely.  In
particular: two records with identical non-empty id pairs collapse to the
first; two records with empty ids and the same non-empty URL collapse to
the first; two records with empty ids and different non-empty URLs both
survive. -/
theorem C3_dedup_rule :
    (∀ ds : List DownloadRecord, get_all_downloads .ok ds true = dedupSpec ds) ∧
    (∀ d1 d2 : DownloadRecord, d1.model_id ≠ "" → d1.version_id ≠ "" →
      d2.model_id = d1.model_id → d2.version_id = d1.version_id →
      get_all_downloads .ok [d1, d2] true = [d1]) ∧
    (∀ d1 d2 : DownloadRecord, d1.model_id = "" → d2.model_id = "" →
      d1.url ≠ "" → d2.url = d1.url →
      get_all_downloads .ok [d1, d2] true = [d1]) ∧
    (∀ d1 d2 : DownloadRecord, d1.model_id = "" → d2.model_id = "" →
      d1.url ≠ "" → d2.url ≠ "" → d2.url ≠ d1.url →
      get_all_downloads .ok [d1, d2] true = [d1, d2]) := by
  refine ⟨?_, ?_, ?_, ?_⟩
  · intro ds
    show remove_duplicates ds = dedupSpec ds
    exact remove_duplicates_aux_eq_dedupSpec_aux ds [] [] (fun _ _ => Iff.rfl)
  · intro d1 d2 h1 h2 h3 h4
    show remove_duplicates [d1, d2] = [d1]
    unfold remove_duplicates
    have e1 : remove_duplicates_aux [d1, d2] []
        = d1 :: remove_duplicates_aux [d2]
            [d1.model_id ++ "_" ++ d1.version_id] := by
      simp only [remove_duplicates_aux]
      rw [if_pos ⟨List.not_mem_nil _, h1, h2⟩]
    have e2 : remove_duplicates_aux [d2]
        [d1.model_id ++ "_" ++ d1.version_id] = [] := by
      simp only [remove_duplicates_aux]
      rw [if_neg (fun c => c.1 (by
          rw [h3, h4]
          exact List.mem_singleton_self _)),
        if_neg (by
          rintro (h | h)
          · exact h1 (by rw [← h3]; exact h)
          · exact h2 (by rw [← h4]; exact h))]
    rw [e1, e2]
  · intro d1 d2 h1 h2 h5 h6
    show remove_duplicates [d1, d2] = [d1]
    unfold remove_duplicates
    have e1 : remove_duplicates_aux [d1, d2] []
        = d1 :: remove_duplicates_aux [d2] [d1.url] := by
      simp only [remove_duplicates_aux]
      rw [if_neg (fun c => c.2.1 h1), if_pos (Or.inl h1),
        if_pos ⟨h5, List.not_mem_nil _⟩]
    have e2 : remove_duplicates_aux [d2] [d1.url] = [] := by
      simp only [remove_duplicates_aux]
      rw [if_neg (fun c => c.2.1 h2), if_pos (Or.inl h2),
        if_neg (fun c => c.2 (by rw [h6]; exact List.mem_singleton_self _))]
    rw [e1, e2]
  · intro d1 d2 h1 h2 h5 h6 h7
    show remove_duplicates [d1, d2] = [d1, d2]
    unfold remove_duplicates
    have e1 : remove_duplicates_aux [d1, d2] []
        = d1 :: remove_duplicates_aux [d2] [d1.url] := by
      simp only [remove_duplicates_aux]
      rw [if_neg (fun c => c.2.1 h1), if_pos (Or.inl h1),
        if_pos ⟨h5, List.not_mem_nil _⟩]
    have e2 : remove_duplicates_aux [d2] [d1.url]
        = d2 :: remove_duplicates_aux [] [d2.url, d1.url] := by
      simp only [remove_duplicates_aux]
      rw [if_neg (fun c => c.2.1 h2), if_pos (Or.inl h2),
        if_pos ⟨h6, by
          intro hm
          exact h7 (List.mem_singleton.mp hm)⟩]
    rw [e1, e2]
    rfl

/-- Witness for the amended claim C3: two concrete records with the same
non-empty id pair collapse to the first. -/
theorem C3_dedup_rule_witness :
    get_all_downloads .ok [recPair1, recPair2] true = [recPair1] :=
  C3_dedup_rule.2.1 recPair1 recPair2 (by decide) (by decide) rfl rfl

/-- Claim C4: on a ledger with `D > 0` rows removed by the dedup rule,
`clean_duplicates` returns `D`, stores a backup equal to the
pre-compaction rows, and leaves a live ledger on which the dedup rule
removes nothing. -/
theorem C4_compaction (ds : List DownloadRecord)
    (h : 0 < ds.length - (remove_duplicates ds).length) :
    (clean_duplicates ⟨ds, none⟩).1
        = ds.length - (remove_duplicates ds).length ∧
    (clean_duplicates ⟨ds, none⟩).2.backup = some ds ∧
    (clean_duplicates ⟨ds, none⟩).2.live = remove_duplicates ds ∧
    remove_duplicates ((clean_duplicates ⟨ds, none⟩).2.live)
        = (clean_duplicates ⟨ds, none⟩).2.live := by
  have hif : clean_duplicates ⟨ds, none⟩
      = (ds.length - (remove_duplicates ds).length,
          ⟨remove_duplicates ds, some ds⟩) := by
    simp only [clean_duplicates]
    rw [if_pos h]
  rw [hif]
  exact ⟨rfl, rfl, rfl, remove_duplicates_aux_idem ds []⟩

/-- Witness for claim C4 at a concrete two-row ledger with one duplicate. -/
theorem C4_compaction_witness :
    (clean_duplicates ⟨[recPair1, recPair2], none⟩).1 = 1 ∧
    (clean_duplicates ⟨[recPair1, recPair2], none⟩).2.backup
        = some [recPair1, recPair2] ∧
    (clean_duplicates ⟨[recPair1, recPair2], none⟩).2.live = [recPair1] := by
  have h := C4_compaction [recPair1, recPair2] (by decide)
  refine ⟨?_, h.2.1, ?_⟩
  · rw [h.1]; decide
  · rw [h.2.2.1]; decide

/-- Claim C8: recording `N` downloads and listing with dedup disabled
returns exactly the `N` built rows, in append order. -/
theorem C8_roundtrip (inps : List DownloadInput) :
    get_all_downloads .ok (record_many [] inps) false
        = inps.map record_download_row ∧
    (get_all_downloads .ok (record_many [] inps) false).length
        = inps.length := by
  have h : get_all_downloads .ok (record_many [] inps) false
      = record_many [] inps := rfl
  rw [h, record_many_eq inps []]
  exact ⟨List.nil_append _, by simp⟩

/-- Claim C9: no ledger I/O failure surfaces to the caller as an
exception: `record_download` always returns normally (on a failed append,
with the ledger unchanged), and `get_all_downloads` returns `[]` when the
file is missing or the read fails. -/
theorem C9_no_ledger_exception :
    (∀ (w : WriteOutcome) (ledger : List DownloadRecord) (inp : DownloadInput),
      ∃ ledger', record_download w ledger inp = Except.ok ledger') ∧
    (∀ (msg : String) (ledger : List DownloadRecord) (inp : DownloadInput),
      record_download (.failure msg) ledger inp = Except.ok ledger) ∧
    (∀ (ledger : List DownloadRecord) (removeDups : Bool),
      get_all_downloads .missing ledger removeDups = []) ∧
    (∀ (msg : String) (ledger : List DownloadRecord) (removeDups : Bool),
      get_all_downloads (.failure msg) ledger removeDups = []) := by
  refine ⟨?_, ?_, ?_, ?_⟩
  · intro w ledger inp
    cases w
    · exact ⟨_, rfl⟩
    · exact ⟨ledger, rfl⟩
  · intro _ _ _
    rfl
  · intro _ _
    rfl
  · intro _ _ _
    rfl

/-- Claim C10: a record with an empty id and an empty URL has no
representative in the deduplicated listing, and `clean_duplicates`
deletes every such record from the live ledger and counts each of them
among the removed rows. -/
theorem C10_keyless_dropped :
    (∀ (ds : List DownloadRecord) (d : DownloadRecord), d ∈ ds →
      (d.model_id = "" ∨ d.version_id = "") → d.url = "" →
      d ∉ remove_duplicates ds) ∧
    (∀ ds : List DownloadRecord,
      (remove_duplicates ds).length + ds.countP keylessB ≤ ds.length) ∧
    (∀ (ds : List DownloadRecord) (d : DownloadRecord), d ∈ ds →
      (d.model_id = "" ∨ d.version_id = "") → d.url = "" →
      d ∉ (clean_duplicates ⟨ds, none⟩).2.live ∧
      ds.countP keylessB ≤ (clean_duplicates ⟨ds, none⟩).1) := by
  refine ⟨?_, ?_, ?_⟩
  · intro ds d _ h1 h2
    exact keyless_not_mem_remove_aux d h1 h2 ds []
  · intro ds
    exact length_remove_aux_add_countP ds []
  · intro ds d hmem h1 h2
    have hkb : keylessB d = true := by
      simp only [keylessB, h2]
      rcases h1 with h | h <;> simp [h]
    have hcount : 0 < ds.countP keylessB :=
      List.countP_pos_iff.mpr ⟨d, hmem, hkb⟩
    have hlen := length_remove_aux_add_countP ds []
    have hrem : 0 < ds.length - (remove_duplicates ds).length := by
      unfold remove_duplicates
      omega
    have hif : clean_duplicates ⟨ds, none⟩
        = (ds.length - (remove_duplicates ds).length,
            ⟨remove_duplicates ds, some ds⟩) := by
      simp only [clean_duplicates]
      rw [if_pos hrem]
    rw [hif]
    refine ⟨keyless_not_mem_remove_aux d h1 h2 ds [], ?_⟩
    unfold remove_duplicates at hlen ⊢
    omega

/-- Witness for claim C10 at a concrete one-record ledger. -/
theorem C10_keyless_dropped_witness :
    recKeyless ∉ (clean_duplicates ⟨[recKeyless], none⟩).2.live ∧
    ([recKeyless] : List DownloadRecord).countP keylessB
        ≤ (clean_duplicates ⟨[recKeyless], none⟩).1 :=
  C10_keyless_dropped.2.2 [recKeyless] recKeyless
    (List.mem_singleton_self _) (Or.inl rfl) rfl

/-- `splitAtFirstChar` finds nothing when no character matches. -/
theorem splitAtFirstChar_not_found (p : Char → Bool) (s : List Char)
    (h : ∀ c ∈ s, p c = false) : splitAtFirstChar p s = (s, none) := by
  induction s with
  | nil => rfl
  | cons c cs ih =>
    simp only [splitAtFirstChar, h c (List.mem_cons_self _ _),
      Bool.false_eq_true, if_false]
    rw [ih (fun c hc => h c (List.mem_cons_of_mem _ hc))]

/-- `splitAtFirstChar` splits at the first matching character. -/
theorem splitAtFirstChar_found (p : Char → Bool) (a : List Char) (x : Char)
    (b : List Char) (ha : ∀ c ∈ a, p c = false) (hx : p x = true) :
    splitAtFirstChar p (a ++ x :: b) = (a, some b) := by
  induction a with
  | nil => simp [splitAtFirstChar, hx]
  | cons c cs ih =>
    simp only [List.cons_append, splitAtFirstChar,
      ha c (List.mem_cons_self _ _), Bool.false_eq_true, if_false]
    rw [List.append_eq, ih (fun c hc => ha c (List.mem_cons_of_mem _ hc))]

/-- `spanUntil` scans to the first delimiter, keeping it in the tail. -/
theorem spanUntil_found (p : Char → Bool) (a : List Char) (x : Char)
    (b : List Char) (ha : ∀ c ∈ a, p c = false) (hx : p x = true) :
    spanUntil p (a ++ x :: b) = (a, x :: b) := by
  induction a with
  | nil => simp [spanUntil, hx]
  | cons c cs ih =>
    simp only [List.cons_append, spanUntil,
      ha c (List.mem_cons_self _ _), Bool.false_eq_true, if_false]
    rw [List.append_eq, ih (fun c hc => ha c (List.mem_cons_of_mem _ hc))]

/-- A pattern is a leading pattern of itself followed by anything. -/
theorem listStartsWith_append (a b : List Char) :
    listStartsWith a (a ++ b) = true := by
  induction a with
  | nil => rfl
  | cons c cs ih => simpa [listStartsWith]

/-- `takeDigits` consumes exactly a leading all-digit run when the
remainder starts with a non-digit (or is empty). -/
theorem takeDigits_append (ds : List Char) (rest : List Char)
    (hds : ∀ c ∈ ds, c.isDigit = true)
    (hrest : ∀ c cs, rest = c :: cs → c.isDigit = false) :
    takeDigits (ds ++ rest) = (ds, rest) := by
  induction ds with
  | nil =>
    cases rest with
    | nil => rfl
    | cons c cs => simp [takeDigits, hrest c cs rfl]
  | cons c cs ih =>
    simp only [List.cons_append, takeDigits, hds c (List.mem_cons_self _ _),
      if_true]
    rw [List.append_eq, ih (fun c hc => hds c (List.mem_cons_of_mem _ hc))]

/-- `splitOn` keeps the string whole when the separator never occurs. -/
theorem splitOn_no_sep (sep : Char) (s : List Char)
    (h : ∀ c ∈ s, c ≠ sep) : splitOn sep s = [s] := by
  induction s with
  | nil => rfl
  | cons c cs ih =>
    simp only [splitOn, if_neg (h c (List.mem_cons_self _ _))]
    rw [ih (fun c hc => h c (List.mem_cons_of_mem _ hc))]

/-- `plusToSpace` is the identity on strings without `+`. -/
theorem plusToSpace_id (s : List Char) (h : ∀ c ∈ s, c ≠ '+') :
    plusToSpace s = s := by
  unfold plusToSpace
  induction s with
  | nil => rfl
  | cons c cs ih =>
    simp only [List.map_cons, if_neg (h c (List.mem_cons_self _ _))]
    rw [ih (fun c hc => h c (List.mem_cons_of_mem _ hc))]

/-- A digit character is none of the URL-special characters and is not
whitespace. -/
theorem digit_char_props (c : Char) (h : c.isDigit = true) :
    isPyWs c = false ∧ c ≠ '#' ∧ c ≠ '?' ∧ c ≠ '&' ∧ c ≠ '=' ∧ c ≠ '+' ∧
    c ≠ '-' ∧ c ≠ '/' := by
  have h2 : c ≠ '#' := by rintro rfl; exact absurd h (by decide)
  have h3 : c ≠ '?' := by rintro rfl; exact absurd h (by decide)
  have h4 : c ≠ '&' := by rintro rfl; exact absurd h (by decide)
  have h5 : c ≠ '=' := by rintro rfl; exact absurd h (by decide)
  have h6 : c ≠ '+' := by rintro rfl; exact absurd h (by decide)
  have h7 : c ≠ '-' := by rintro rfl; exact absurd h (by decide)
  have h8 : c ≠ '/' := by rintro rfl; exact absurd h (by decide)
  have hsp : c ≠ ' ' := by rintro rfl; exact absurd h (by decide)
  have hta : c ≠ '\t' := by rintro rfl; exact absurd h (by decide)
  have hcr : c ≠ '\r' := by rintro rfl; exact absurd h (by decide)
  have hnl : c ≠ '\n' := by rintro rfl; exact absurd h (by decide)
  refine ⟨?_, h2, h3, h4, h5, h6, h7, h8⟩
  simp [isPyWs, Char.isWhitespace, hsp, hta, hcr, hnl]

/-- Stripping whitespace is the identity on whitespace-free strings. -/
theorem stripWs_id (s : List Char) (h : ∀ c ∈ s, isPyWs c = false) :
    stripWs s = s := by
  unfold stripWs
  have h1 : s.dropWhile isPyWs = s := by
    cases s with
    | nil => rfl
    | cons c cs =>
      rw [List.dropWhile_cons, h c (List.mem_cons_self _ _)]
      simp
  rw [h1]
  have h2 : s.reverse.dropWhile isPyWs = s.reverse := by
    cases hr : s.reverse with
    | nil => rfl
    | cons c cs =>
      have hc : c ∈ s := by
        rw [← List.mem_reverse, hr]
        exact List.mem_cons_self _ _
      rw [List.dropWhile_cons, h c hc]
      simp
  rw [h2, List.reverse_reverse]

/-- `urlsplit` on `https://civitai.com` followed by an absolute path
without `#`: path and query are the `?`-split of the path part. -/
theorem urlsplit_civitai (p' : List Char) (h1 : ∀ c ∈ p', c ≠ '#') :
    urlsplitModel ("https://civitai.com".data ++ '/' :: p')
      = .ok ((splitAtFirstChar (· = '?') ('/' :: p')).1,
        ((splitAtFirstChar (· = '?') ('/' :: p')).2).getD []) := by
  have e0 : "https://civitai.com".data ++ '/' :: p'
      = "https".data ++ ':' :: ("//civitai.com".data ++ '/' :: p') := rfl
  have e1 : stripScheme ("https".data ++ ':' :: ("//civitai.com".data ++ '/' :: p'))
      = "//civitai.com".data ++ '/' :: p' := by
    unfold stripScheme
    rw [splitAtFirstChar_found (· = ':') "https".data ':'
      ("//civitai.com".data ++ '/' :: p') (by decide) (by decide)]
    rfl
  have e2 : netlocSplit ("//civitai.com".data ++ '/' :: p')
      = ("civitai.com".data, '/' :: p') := by
    unfold netlocSplit
    have e2a : listStartsWith ['/', '/'] ("//civitai.com".data ++ '/' :: p')
        = true := rfl
    rw [if_pos e2a]
    have e2b : ("//civitai.com".data ++ '/' :: p').drop 2
        = "civitai.com".data ++ '/' :: p' := rfl
    rw [e2b]
    exact spanUntil_found _ "civitai.com".data '/' p' (by decide) (by decide)
  have e3 : splitAtFirstChar (· = '#') ('/' :: p') = ('/' :: p', none) := by
    apply splitAtFirstChar_not_found
    intro c hc
    rcases List.mem_cons.mp hc with h | h
    · subst h; decide
    · exact decide_eq_false (h1 c h)
  unfold urlsplitModel
  rw [e0, e1, e2]
  have e4 : badBrackets "civitai.com".data = false := by decide
  simp only [e4, Bool.false_eq_true, if_false, e3]

/-- The regex search finds the digit run right after the leading
`/models/` of the path. -/
theorem findModels_models (ds rest : List Char) (hne : ds ≠ [])
    (hdig : ∀ c ∈ ds, c.isDigit = true)
    (hrest : ∀ c cs, rest = c :: cs → c.isDigit = false) :
    findModels ("/models/".data ++ ds ++ rest) = some ds := by
  have e0 : "/models/".data ++ ds ++ rest
      = '/' :: ("models/".data ++ (ds ++ rest)) := by
    rw [List.append_assoc]
    rfl
  have hm : matchModelsAt ('/' :: ("models/".data ++ (ds ++ rest)))
      = some ds := by
    unfold matchModelsAt
    have hsw : listStartsWith "/models/".data
        ('/' :: ("models/".data ++ (ds ++ rest))) = true :=
      listStartsWith_append "/models/".data (ds ++ rest)
    rw [if_pos hsw]
    have hdrop : ('/' :: ("models/".data ++ (ds ++ rest))).drop 8
        = ds ++ rest := by
      show ("/models/".data ++ (ds ++ rest)).drop 8 = ds ++ rest
      have h8 : (8 : ℕ) = "/models/".data.length := rfl
      rw [h8, List.drop_left]
    rw [hdrop, takeDigits_append ds rest hdig hrest]
    cases ds with
    | nil => exact absurd rfl hne
    | cons d dtl => rfl
  rw [e0]
  unfold findModels
  rw [hm]

/-- The query `modelVersionId={digits}` parses to the single pair the
parser reads. -/
theorem parseQsl_mvid (v : List Char) (hne : v ≠ [])
    (hdig : ∀ c ∈ v, c.isDigit = true) :
    parseQsl ("modelVersionId=".data ++ v)
      = [("modelVersionId".data, v)] := by
  unfold parseQsl
  have hsep : splitOn '&' ("modelVersionId=".data ++ v)
      = ["modelVersionId=".data ++ v] := by
    apply splitOn_no_sep
    intro c hc
    rcases List.mem_append.mp hc with h | h
    · exact (by decide : ∀ c ∈ "modelVersionId=".data, c ≠ '&') c h
    · exact (digit_char_props c (hdig c h)).2.2.2.1
  rw [hsep]
  have hpart : qslPart ("modelVersionId=".data ++ v)
      = some ("modelVersionId".data, v) := by
    unfold qslPart
    have hne2 : ("modelVersionId=".data ++ v).isEmpty = false := rfl
    have hsplit : splitAtFirstChar (· = '=') ("modelVersionId=".data ++ v)
        = ("modelVersionId".data, some v) := by
      have e : "modelVersionId=".data ++ v = "modelVersionId".data ++ '=' :: v := rfl
      rw [e]
      exact splitAtFirstChar_found _ _ _ _ (by decide) (by decide)
    rw [hne2, hsplit]
    have hvne : v.isEmpty = false := by
      cases v with
      | nil => exact absurd rfl hne
      | cons c cs => rfl
    simp only [Bool.false_eq_true, if_false, hvne]
    rw [plusToSpace_id "modelVersionId".data (by decide),
      plusToSpace_id v (fun c hc => (digit_char_props c (hdig c hc)).2.2.2.2.2.1)]
  rw [List.filterMap_cons, hpart]
  rfl

/-- `int()` of a non-empty digit string is its numeric value. -/
theorem pyInt_digits (v : List Char) (hne : v ≠ [])
    (hdig : ∀ c ∈ v, c.isDigit = true) :
    pyIntOfChars v = some ((natOfDigits v : ℕ) : ℤ) := by
  unfold pyIntOfChars
  rw [stripWs_id v (fun c hc => (digit_char_props c (hdig c hc)).1)]
  cases v with
  | nil => exact absurd rfl hne
  | cons c cs =>
    have hc := hdig c (List.mem_cons_self _ _)
    have h6 : c ≠ '+' := (digit_char_props c hc).2.2.2.2.2.1
    have h7 : c ≠ '-' := (digit_char_props c hc).2.2.2.2.2.2.1
    have hall : (c :: cs).all Char.isDigit = true :=
      List.all_eq_true.mpr hdig
    simp only [if_neg h6, if_neg h7, hall, if_true]

/-- `parse_url` in terms of a computed `urlsplit` result. -/
theorem parse_url_of_urlsplit (url : String) (path query : List Char)
    (h : urlsplitModel url.data = .ok (path, query)) :
    parse_url url
      = .ok (Option.map natOfDigits (findModels path), queryVersion query) := by
  unfold parse_url
  rw [h]

/-- The version read from the query `modelVersionId={digits}`. -/
theorem queryVersion_mvid (v : List Char) (hne : v ≠ [])
    (hdig : ∀ c ∈ v, c.isDigit = true) :
    queryVersion ("modelVersionId=".data ++ v)
      = some ((natOfDigits v : ℕ) : ℤ) := by
  unfold queryVersion
  rw [parseQsl_mvid v hne hdig]
  have hl : lookupFirstValue "modelVersionId".data
      [("modelVersionId".data, v)] = some v := by
    unfold lookupFirstValue
    rw [if_pos rfl]
  rw [hl]
  show pyIntOfChars v = some ((natOfDigits v : ℕ) : ℤ)
  exact pyInt_digits v hne hdig

/-- Claim C2, counterexample: a URL without a `/models/{id}` segment does
not raise `InvalidURL` — `parse_url` returns `(None, None)` normally. -/
theorem C2_counterexample :
    parse_url "https://example.com/foo" = Except.ok (none, none) := by
  rfl

/-- Claim C2 (amended): for the three supported shapes `parse_url`
returns exactly `(id, v)` with `v = None` when absent; for every other
shape it does not raise — it returns normally, with `model_id = None`
whenever the path has no `/models/{digits}` segment — and it raises the
`Invalid Civitai URL` error only when the URL-parsing layer itself fails
(mismatched square brackets in the authority). -/
theorem C2_parse_url_shapes :
    (∀ idStr : String, idStr.data ≠ [] → (∀ c ∈ idStr.data, c.isDigit = true) →
      parse_url ("https://civitai.com/models/" ++ idStr)
        = .ok (some (natOfDigits idStr.data), none)) ∧
    (∀ idStr vStr : String, idStr.data ≠ [] →
      (∀ c ∈ idStr.data, c.isDigit = true) → vStr.data ≠ [] →
      (∀ c ∈ vStr.data, c.isDigit = true) →
      parse_url ("https://civitai.com/models/" ++ idStr
          ++ "?modelVersionId=" ++ vStr)
        = .ok (some (natOfDigits idStr.data),
            some ((natOfDigits vStr.data : ℕ) : ℤ))) ∧
    (∀ idStr slug vStr : String, idStr.data ≠ [] →
      (∀ c ∈ idStr.data, c.isDigit = true) →
      (∀ c ∈ slug.data, c ≠ '?' ∧ c ≠ '#') → vStr.data ≠ [] →
      (∀ c ∈ vStr.data, c.isDigit = true) →
      parse_url ("https://civitai.com/models/" ++ idStr ++ "/" ++ slug
          ++ "?modelVersionId=" ++ vStr)
        = .ok (some (natOfDigits idStr.data),
            some ((natOfDigits vStr.data : ℕ) : ℤ))) ∧
    (∀ (url : String) (e : String), parse_url url = .error e →
      badBrackets (netlocSplit (stripScheme url.data)).1 = true) ∧
    (∀ (url : String) (path query : List Char),
      urlsplitModel url.data = .ok (path, query) → findModels path = none →
      ∃ v, parse_url url = .ok (none, v)) := by
  refine ⟨?_, ?_, ?_, ?_, ?_⟩
  · intro idStr hi1 hi2
    have hdata : ("https://civitai.com/models/" ++ idStr).data
        = "https://civitai.com".data ++ '/' :: ("models/".data ++ idStr.data) := by
      simp only [String.data_append]
      rfl
    have hfrag : ∀ c ∈ "models/".data ++ idStr.data, c ≠ '#' := by
      intro c hc
      rcases List.mem_append.mp hc with h | h
      · exact (by decide : ∀ c ∈ "models/".data, c ≠ '#') c h
      · exact (digit_char_props c (hi2 c h)).2.1
    have hus : urlsplitModel ("https://civitai.com/models/" ++ idStr).data
        = .ok ((splitAtFirstChar (· = '?')
              ('/' :: ("models/".data ++ idStr.data))).1,
            ((splitAtFirstChar (· = '?')
              ('/' :: ("models/".data ++ idStr.data))).2).getD []) := by
      rw [hdata]
      exact urlsplit_civitai _ hfrag
    have hsplitq : splitAtFirstChar (· = '?')
        ('/' :: ("models/".data ++ idStr.data))
        = ('/' :: ("models/".data ++ idStr.data), none) := by
      apply splitAtFirstChar_not_found
      intro c hc
      rcases List.mem_cons.mp hc with h | h
      · subst h; decide
      · rcases List.mem_append.mp h with h | h
        · exact decide_eq_false ((by decide : ∀ c ∈ "models/".data, c ≠ '?') c h)
        · exact decide_eq_false (digit_char_props c (hi2 c h)).2.2.1
    rw [hsplitq] at hus
    rw [parse_url_of_urlsplit _ _ _ hus]
    have hfm := findModels_models idStr.data [] hi1 hi2
      (fun c cs h => List.noConfusion h)
    rw [List.append_nil] at hfm
    have hpath : '/' :: ("models/".data ++ idStr.data)
        = "/models/".data ++ idStr.data := rfl
    rw [hpath, hfm]
    rfl
  · intro idStr vStr hi1 hi2 hv1 hv2
    have hdata : ("https://civitai.com/models/" ++ idStr
          ++ "?modelVersionId=" ++ vStr).data
        = "https://civitai.com".data ++ '/' :: ("models/".data
            ++ (idStr.data ++ '?' :: ("modelVersionId=".data ++ vStr.data))) := by
      simp only [String.data_append, List.append_assoc]
      rfl
    have hfrag : ∀ c ∈ "models/".data
        ++ (idStr.data ++ '?' :: ("modelVersionId=".data ++ vStr.data)),
        c ≠ '#' := by
      intro c hc
      rcases List.mem_append.mp hc with h | h
      · exact (by decide : ∀ c ∈ "models/".data, c ≠ '#') c h
      rcases List.mem_append.mp h with h | h
      · exact (digit_char_props c (hi2 c h)).2.1
      rcases List.mem_cons.mp h with h | h
      · subst h; decide
      rcases List.mem_append.mp h with h | h
      · exact (by decide : ∀ c ∈ "modelVersionId=".data, c ≠ '#') c h
      · exact (digit_char_props c (hv2 c h)).2.1
    have hus : urlsplitModel ("https://civitai.com/models/" ++ idStr
          ++ "?modelVersionId=" ++ vStr).data
        = .ok ((splitAtFirstChar (· = '?') ('/' :: ("models/".data
              ++ (idStr.data ++ '?' :: ("modelVersionId=".data ++ vStr.data))))).1,
            ((splitAtFirstChar (· = '?') ('/' :: ("models/".data
              ++ (idStr.data ++ '?' :: ("modelVersionId=".data
                ++ vStr.data))))).2).getD []) := by
      rw [hdata]
      exact urlsplit_civitai _ hfrag
    have hsplitq : splitAtFirstChar (· = '?') ('/' :: ("models/".data
          ++ (idStr.data ++ '?' :: ("modelVersionId=".data ++ vStr.data))))
        = ("/models/".data ++ idStr.data,
            some ("modelVersionId=".data ++ vStr.data)) := by
      have e : '/' :: ("models/".data
            ++ (idStr.data ++ '?' :: ("modelVersionId=".data ++ vStr.data)))
          = ("/models/".data ++ idStr.data)
              ++ '?' :: ("modelVersionId=".data ++ vStr.data) := by
        simp only [List.append_assoc]
        rfl
      rw [e]
      apply splitAtFirstChar_found
      · intro c hc
        rcases List.mem_append.mp hc with h | h
        · exact decide_eq_false
            ((by decide : ∀ c ∈ "/models/".data, c ≠ '?') c h)
        · exact decide_eq_false (digit_char_props c (hi2 c h)).2.2.1
      · decide
    rw [hsplitq] at hus
    rw [parse_url_of_urlsplit _ _ _ hus]
    have hfm := findModels_models idStr.data [] hi1 hi2
      (fun c cs h => List.noConfusion h)
    rw [List.append_nil] at hfm
    have hgd : (some ("modelVersionId=".data ++ vStr.data)).getD ([] : List Char)
        = "modelVersionId=".data ++ vStr.data := rfl
    rw [hgd, hfm, queryVersion_mvid vStr.data hv1 hv2]
    rfl
  · intro idStr slug vStr hi1 hi2 hs hv1 hv2
    have hdata : ("https://civitai.com/models/" ++ idStr ++ "/" ++ slug
          ++ "?modelVersionId=" ++ vStr).data
        = "https://civitai.com".data ++ '/' :: ("models/".data
            ++ (idStr.data ++ '/' :: (slug.data
              ++ '?' :: ("modelVersionId=".data ++ vStr.data)))) := by
      simp only [String.data_append, List.append_assoc]
      rfl
    have hfrag : ∀ c ∈ "models/".data ++ (idStr.data ++ '/' :: (slug.data
          ++ '?' :: ("modelVersionId=".data ++ vStr.data))), c ≠ '#' := by
      intro c hc
      rcases List.mem_append.mp hc with h | h
      · exact (by decide : ∀ c ∈ "models/".data, c ≠ '#') c h
      rcases List.mem_append.mp h with h | h
      · exact (digit_char_props c (hi2 c h)).2.1
      rcases List.mem_cons.mp h with h | h
      · subst h; decide
      rcases List.mem_append.mp h with h | h
      · exact (hs c h).2
      rcases List.mem_cons.mp h with h | h
      · subst h; decide
      rcases List.mem_append.mp h with h | h
      · exact (by decide : ∀ c ∈ "modelVersionId=".data, c ≠ '#') c h
      · exact (digit_char_props c (hv2 c h)).2.1
    have hus : urlsplitModel ("https://civitai.com/models/" ++ idStr ++ "/"
          ++ slug ++ "?modelVersionId=" ++ vStr).data
        = .ok ((splitAtFirstChar (· = '?') ('/' :: ("models/".data
              ++ (idStr.data ++ '/' :: (slug.data
                ++ '?' :: ("modelVersionId=".data ++ vStr.data)))))).1,
            ((splitAtFirstChar (· = '?') ('/' :: ("models/".data
              ++ (idStr.data ++ '/' :: (slug.data
                ++ '?' :: ("modelVersionId=".data
                  ++ vStr.data)))))).2).getD []) := by
      rw [hdata]
      exact urlsplit_civitai _ hfrag
    have hsplitq : splitAtFirstChar (· = '?') ('/' :: ("models/".data
          ++ (idStr.data ++ '/' :: (slug.data
            ++ '?' :: ("modelVersionId=".data ++ vStr.data)))))
        = ("/models/".data ++ idStr.data ++ '/' :: slug.data,
            some ("modelVersionId=".data ++ vStr.data)) := by
      have e : '/' :: ("models/".data ++ (idStr.data ++ '/' :: (slug.data
            ++ '?' :: ("modelVersionId=".data ++ vStr.data))))
          = ("/models/".data ++ idStr.data ++ '/' :: slug.data)
              ++ '?' :: ("modelVersionId=".data ++ vStr.data) := by
        simp only [List.append_assoc]
        rfl
      rw [e]
      apply splitAtFirstChar_found
      · intro c hc
        rcases List.mem_append.mp hc with h | h
        rcases List.mem_append.mp h with h | h
        · exact decide_eq_false
            ((by decide : ∀ c ∈ "/models/".data, c ≠ '?') c h)
        · exact decide_eq_false (digit_char_props c (hi2 c h)).2.2.1
        rcases List.mem_cons.mp h with h | h
        · subst h; decide
        · exact decide_eq_false (hs c h).1
      · decide
    rw [hsplitq] at hus
    rw [parse_url_of_urlsplit _ _ _ hus]
    have hfm := findModels_models idStr.data ('/' :: slug.data) hi1 hi2
      (fun c cs h => by
        injection h with h1 h2
        rw [← h1]
        decide)
    have hgd : (some ("modelVersionId=".data ++ vStr.data)).getD ([] : List Char)
        = "modelVersionId=".data ++ vStr.data := rfl
    rw [hgd, hfm, queryVersion_mvid vStr.data hv1 hv2]
    rfl
  · intro url e he
    rcases hsplit : urlsplitModel url.data with e' | ⟨path, query⟩
    · unfold urlsplitModel at hsplit
      rcases hns : netlocSplit (stripScheme url.data) with ⟨netloc, rest⟩
      rw [hns] at hsplit
      by_cases hb : badBrackets netloc = true
      · exact hb
      · exfalso
        simp only [Bool.not_eq_true] at hb
        simp only [hb, Bool.false_eq_true, if_false] at hsplit
        rcases hf : splitAtFirstChar (fun x => decide (x = '#')) rest
          with ⟨beforeFrag, f2⟩
        simp only [hf] at hsplit
        rcases hq : splitAtFirstChar (fun x => decide (x = '?')) beforeFrag
          with ⟨path, queryOpt⟩
        simp only [hq] at hsplit
        exact Except.noConfusion hsplit
    · rw [parse_url_of_urlsplit url path query hsplit] at he
      exact Except.noConfusion he
  · intro url path query h hf
    refine ⟨queryVersion query, ?_⟩
    rw [parse_url_of_urlsplit url path query h, hf]
    rfl

/-- Witness for the amended claim C2 at the repository's own example
URL. -/
theorem C2_parse_url_shapes_witness :
    parse_url "https://civitai.com/models/649516?modelVersionId=726676"
      = Except.ok (some 649516, some 726676) := by
  have h := C2_parse_url_shapes.2.1 "649516" "726676"
    (by decide) (by decide) (by decide) (by decide)
  rw [show ("https://civitai.com/models/" ++ "649516" ++ "?modelVersionId="
      ++ "726676" : String)
    = "https://civitai.com/models/649516?modelVersionId=726676" from rfl] at h
  rw [h]
  rfl

/-- Claim C1, the code evaluated at the failing input: with a 1-byte
`.part` file and a server answering 200 (fresh full body `[1, 2, 3]`,
content-length 3, the requested range ignored), `download_file` opens the
`.part` file in append mode and streams the whole body after the stale
byte: the published file is `[1, 1, 2, 3]` — 4 bytes, not the
content-length 3, with the stale leading byte duplicated. -/
theorem C1_fresh_start_bug :
    (download_file ⟨some [1], none⟩ ⟨200, 3, [1, 2, 3]⟩).success = true ∧
    (download_file ⟨some [1], none⟩ ⟨200, 3, [1, 2, 3]⟩).rangeOffset = some 1 ∧
    (download_file ⟨some [1], none⟩ ⟨200, 3, [1, 2, 3]⟩).fs.finalFile
        = some [1, 1, 2, 3] ∧
    ((download_file ⟨some [1], none⟩
        ⟨200, 3, [1, 2, 3]⟩).fs.finalFile.getD []).length ≠ 3 := by
  decide

/-- Claim C5, counterexample: a 503 answer on the first attempt is not
retried — the lookup returns no result after a single request and no
sleep, even though the next attempt would have succeeded.  The claim's
"every HTTP 5xx status is retried with backoff" fails for 503. -/
theorem C5_counterexample :
    search_civitai_api respsC5 jitterZero = (none, [SearchEvent.request 0]) := by
  rfl

/-- Claim C5 (amended): on 429 the lookup sleeps the server-supplied
`Retry-After` (default 60) capped at 300 seconds and retries up to the
3-attempt ceiling; on 500 — and only 500 among the 5xx statuses — it
sleeps `base_delay * 2^attempt + jitter` and retries up to the same
ceiling; on 404 and on 401 it stops after one request with no result; on
every other status it also stops after one request with no result. -/
theorem C5_retry_semantics :
    (∀ (f : ℕ → Option ℤ) (p : ℕ → ℕ) (j : ℕ → ℚ),
      search_civitai_api (fun i => .resp 429 (f i) (p i)) j
        = (none, [.request 0, .sleep ((min ((f 0).getD 60) 300 : ℤ) : ℚ),
            .request 1, .sleep ((min ((f 1).getD 60) 300 : ℤ) : ℚ),
            .request 2])) ∧
    (∀ (p : ℕ → ℕ) (j : ℕ → ℚ),
      search_civitai_api (fun i => .resp 500 none (p i)) j
        = (none, [.request 0, .sleep (1 * 2 ^ 0 + j 0),
            .request 1, .sleep (1 * 2 ^ 1 + j 1), .request 2])) ∧
    (∀ (ra : Option ℤ) (p : ℕ) (j : ℕ → ℚ),
      search_civitai_api (fun _ => .resp 404 ra p) j
        = (none, [.request 0])) ∧
    (∀ (ra : Option ℤ) (p : ℕ) (j : ℕ → ℚ),
      search_civitai_api (fun _ => .resp 401 ra p) j
        = (none, [.request 0])) ∧
    (∀ (s : ℕ) (ra : Option ℤ) (p : ℕ) (j : ℕ → ℚ),
      s ≠ 200 → s ≠ 404 → s ≠ 401 → s ≠ 429 → s ≠ 500 →
      search_civitai_api (fun _ => .resp s ra p) j
        = (none, [.request 0])) := by
  refine ⟨?_, ?_, ?_, ?_, ?_⟩
  · intro f p j
    rfl
  · intro p j
    rfl
  · intro ra p j
    rfl
  · intro ra p j
    rfl
  · intro s ra p j h200 h404 h401 h429 h500
    simp only [search_civitai_api, search_go]
    rw [if_neg h200, if_neg h404, if_neg h401, if_neg h429, if_neg h500]

/-- Witness for the amended claim C5: a 503 answer produces one request,
no sleeps and no result. -/
theorem C5_retry_semantics_witness :
    search_civitai_api resps503 jitterZero = (none, [SearchEvent.request 0]) :=
  C5_retry_semantics.2.2.2.2 503 none 7 jitterZero (by decide) (by decide)
    (by decide) (by decide) (by decide)

/-- `scan_directory_go` over raise-free files: every supported file is
attempted, the found metadata is collected in order, nothing is caught. -/
theorem scan_go_no_raise (files : List ScanFile)
    (h : ∀ f ∈ files, isRaised f.outcome = false) :
    scan_directory_go files
      = (files.filterMap scanMeta, (files.filter extSupported).length, none) := by
  induction files with
  | nil => rfl
  | cons g rest ih =>
    have hg := h g (List.mem_cons_self _ _)
    have hrest := ih (fun f hf => h f (List.mem_cons_of_mem _ hf))
    by_cases hs : extSupported g = true
    · cases hout : g.outcome with
      | found m =>
        simp only [scan_directory_go, hs, if_true, hout, hrest,
          List.filterMap_cons, List.filter_cons, scanMeta, hs]
        simp [hout]
      | skipped =>
        simp only [scan_directory_go, hs, if_true, hout, hrest,
          List.filterMap_cons, List.filter_cons, scanMeta, hs]
        simp [hout]
      | raised msg =>
        rw [hout] at hg
        simp [isRaised] at hg
    · have hs' : extSupported g = false := by
        simpa using hs
      simp only [scan_directory_go, hs', Bool.false_eq_true, if_false, hrest,
        List.filterMap_cons, List.filter_cons, scanMeta, hs']

/-- `scan_directory_go` with a raising file after a raise-free portion:
the loop stops at the raising file; later files are never attempted. -/
theorem scan_go_raise (pre : List ScanFile) (f : ScanFile)
    (post : List ScanFile) (msg : String)
    (hpre : ∀ g ∈ pre, isRaised g.outcome = false)
    (hf : extSupported f = true) (hout : f.outcome = .raised msg) :
    scan_directory_go (pre ++ f :: post)
      = (pre.filterMap scanMeta, (pre.filter extSupported).length + 1,
          some msg) := by
  induction pre with
  | nil =>
    simp only [List.nil_append, scan_directory_go, hf, if_true, hout]
    rfl
  | cons g rest ih =>
    have hg := hpre g (List.mem_cons_self _ _)
    have hrest := ih (fun x hx => hpre x (List.mem_cons_of_mem _ hx))
    by_cases hs : extSupported g = true
    · cases hgo : g.outcome with
      | found m =>
        simp only [List.cons_append, scan_directory_go, hs, if_true, hgo,
          List.filterMap_cons, List.filter_cons, scanMeta, hs]
        simp [hgo, hrest]
      | skipped =>
        simp only [List.cons_append, scan_directory_go, hs, if_true, hgo,
          List.filterMap_cons, List.filter_cons, scanMeta, hs]
        simp [hgo, hrest]
      | raised m =>
        rw [hgo] at hg
        simp [isRaised] at hg
    · have hs' : extSupported g = false := by
        simpa using hs
      simp only [List.cons_append, scan_directory_go, hs', Bool.false_eq_true,
        if_false, List.filterMap_cons, List.filter_cons, scanMeta, hs']
      simp [hrest]

/-- Claim C7, counterexample: an exception escaping `scan_model_file` on
the first supported file aborts the scan — the second supported file is
never attempted (one call made) and its metadata is not returned, where
the claim requires every other matching file to still be attempted. -/
theorem C7_counterexample :
    scan_directory [⟨".safetensors", .raised "io error"⟩,
        ⟨".safetensors", .found 2⟩]
      = ([], 1) := by
  rfl

/-- Claim C7 (amended): a per-file failure that `scan_model_file` handles
internally (returning no metadata) does not abort the scan — with no
escaping exception every supported file is attempted and all found
metadata is returned in order; but an exception escaping
`scan_model_file` aborts the remaining files: the loop stops there,
the exception is caught by the surrounding handler, and only the
metadata collected before the failing file is returned. -/
theorem C7_scan_abort_semantics :
    (∀ files : List ScanFile, (∀ f ∈ files, isRaised f.outcome = false) →
      scan_directory files
        = (files.filterMap scanMeta, (files.filter extSupported).length)) ∧
    (∀ (pre : List ScanFile) (f : ScanFile) (post : List ScanFile)
        (msg : String), (∀ g ∈ pre, isRaised g.outcome = false) →
      extSupported f = true → f.outcome = .raised msg →
      scan_directory (pre ++ f :: post)
        = (pre.filterMap scanMeta, (pre.filter extSupported).length + 1)) := by
  constructor
  · intro files h
    unfold scan_directory
    rw [scan_go_no_raise files h]
  · intro pre f post msg hpre hf hout
    unfold scan_directory
    rw [scan_go_raise pre f post msg hpre hf hout]

/-- Witness for the amended claim C7: a raise on the second file keeps the
first file's metadata and never reaches the third. -/
theorem C7_scan_abort_semantics_witness :
    scan_directory [⟨".pt", .found 5⟩, ⟨".bin", .raised "io error"⟩,
        ⟨".ckpt", .found 9⟩]
      = ([5], 2) := by
  have h := C7_scan_abort_semantics.2 [⟨".pt", .found 5⟩]
    ⟨".bin", .raised "io error"⟩ [⟨".ckpt", .found 9⟩] "io error"
    (by decide) (by decide) rfl
  rw [show ([⟨".pt", .found 5⟩] ++ ⟨".bin", .raised "io error"⟩
        :: [⟨".ckpt", .found 9⟩] : List ScanFile)
      = [⟨".pt", .found 5⟩, ⟨".bin", .raised "io error"⟩,
          ⟨".ckpt", .found 9⟩] from rfl] at h
  rw [h]
  decide

/-- `Char.ofNat` round-trips `toNat` on valid code points. -/
theorem toNat_ofNat_valid (n : ℕ) (h : n.isValidChar) :
    (Char.ofNat n).toNat = n := by
  simp [Char.ofNat, h, Char.ofNatAux, Char.toNat, UInt32.toNat,
    BitVec.toNat_ofNatLt]

/-- Upper-casing after lower-casing equals upper-casing (per character). -/
theorem pyUpperChar_pyLowerChar (c : Char) :
    pyUpperChar (pyLowerChar c) = pyUpperChar c := by
  unfold pyLowerChar pyUpperChar
  by_cases h1 : 65 ≤ c.toNat ∧ c.toNat ≤ 90
  · rw [if_pos h1]
    have hv : (c.toNat + 32).isValidChar := Or.inl (by omega)
    have ht : (Char.ofNat (c.toNat + 32)).toNat = c.toNat + 32 :=
      toNat_ofNat_valid _ hv
    rw [ht]
    rw [if_pos (by omega : 97 ≤ c.toNat + 32 ∧ c.toNat + 32 ≤ 122),
      if_neg (by omega : ¬(97 ≤ c.toNat ∧ c.toNat ≤ 122))]
    have he : c.toNat + 32 - 32 = c.toNat := by omega
    rw [he, Char.ofNat_toNat]
  · rw [if_neg h1]

/-- Lower-casing after upper-casing equals lower-casing (per character). -/
theorem pyLowerChar_pyUpperChar (c : Char) :
    pyLowerChar (pyUpperChar c) = pyLowerChar c := by
  unfold pyLowerChar pyUpperChar
  by_cases h1 : 97 ≤ c.toNat ∧ c.toNat ≤ 122
  · rw [if_pos h1]
    have hv : (c.toNat - 32).isValidChar := Or.inl (by omega)
    have ht : (Char.ofNat (c.toNat - 32)).toNat = c.toNat - 32 :=
      toNat_ofNat_valid _ hv
    rw [ht]
    rw [if_pos (by omega : 65 ≤ c.toNat - 32 ∧ c.toNat - 32 ≤ 90),
      if_neg (by omega : ¬(65 ≤ c.toNat ∧ c.toNat ≤ 90))]
    have he : c.toNat - 32 + 32 = c.toNat := by omega
    rw [he, Char.ofNat_toNat]
  · rw [if_neg h1]

/-- `s.lower().upper() == s.upper()` in the ASCII model. -/
theorem pyUpper_pyLower (s : String) : pyUpper (pyLower s) = pyUpper s := by
  have hl : ∀ l : List Char,
      (l.map pyLowerChar).map pyUpperChar = l.map pyUpperChar := by
    intro l
    induction l with
    | nil => rfl
    | cons c cs ih => simp [pyUpperChar_pyLowerChar, ih]
  exact congrArg String.mk (hl s.data)

/-- `s.upper().lower() == s.lower()` in the ASCII model. -/
theorem pyLower_pyUpper (s : String) : pyLower (pyUpper s) = pyLower s := by
  have hl : ∀ l : List Char,
      (l.map pyUpperChar).map pyLowerChar = l.map pyLowerChar := by
    intro l
    induction l with
    | nil => rfl
    | cons c cs ih => simp [pyLowerChar_pyUpperChar, ih]
  exact congrArg String.mk (hl s.data)

/-- A known lower-casing determines the upper-casing. -/
theorem upper_of_lower (s t : String) (h : pyLower s = t) :
    pyUpper s = pyUpper t := by
  rw [← pyUpper_pyLower s, h]

/-- A known upper-casing determines the lower-casing. -/
theorem lower_of_upper (s t : String) (h : pyUpper s = t) :
    pyLower s = pyLower t := by
  rw [← pyLower_pyUpper s, h]

/-- The scanner override at an API type upper-casing to `LORA`. -/
theorem scan_apply_lora (h s : String) (h1 : pyUpper s = "LORA") :
    scan_apply_api_type h (some s) = "lora" := by
  unfold scan_apply_api_type detect_model_type_from_api
  rw [show ((some s).getD "" : String) = s from rfl, h1]
  rfl

/-- The scanner override at an API type upper-casing to `LOCON`. -/
theorem scan_apply_locon (h s : String) (h1 : pyUpper s = "LOCON") :
    scan_apply_api_type h (some s) = "lora" := by
  unfold scan_apply_api_type detect_model_type_from_api
  rw [show ((some s).getD "" : String) = s from rfl, h1]
  rfl

/-- The scanner override at an API type upper-casing to `CHECKPOINT`. -/
theorem scan_apply_checkpoint (h s : String) (h1 : pyUpper s = "CHECKPOINT") :
    scan_apply_api_type h (some s) = "checkpoint" := by
  unfold scan_apply_api_type detect_model_type_from_api
  rw [show ((some s).getD "" : String) = s from rfl, h1]
  rfl

/-- The scanner override at an API type upper-casing to
`TEXTUALINVERSION`. -/
theorem scan_apply_ti (h s : String) (h1 : pyUpper s = "TEXTUALINVERSION") :
    scan_apply_api_type h (some s) = "embedding" := by
  unfold scan_apply_api_type detect_model_type_from_api
  rw [show ((some s).getD "" : String) = s from rfl, h1]
  rfl

/-- The scanner keeps the heuristic category on every API type outside
its table. -/
theorem scan_apply_unknown (h s : String)
    (k1 : pyUpper s ≠ "LORA") (k2 : pyUpper s ≠ "LOCON")
    (k3 : pyUpper s ≠ "CHECKPOINT") (k4 : pyUpper s ≠ "TEXTUALINVERSION") :
    scan_apply_api_type h (some s) = h := by
  unfold scan_apply_api_type detect_model_type_from_api
  rw [show ((some s).getD "" : String) = s from rfl]
  by_cases he : pyUpper s = ""
  · rw [if_pos he]
    rfl
  · rw [if_neg he]
    have b1 : (pyUpper s == "LORA") = false := beq_eq_false_iff_ne.mpr k1
    have b2 : (pyUpper s == "LOCON") = false := beq_eq_false_iff_ne.mpr k2
    have b3 : (pyUpper s == "CHECKPOINT") = false := beq_eq_false_iff_ne.mpr k3
    have b4 : (pyUpper s == "TEXTUALINVERSION") = false :=
      beq_eq_false_iff_ne.mpr k4
    have hlk : API_TYPE_MAPPING.lookup (pyUpper s) = none := by
      simp [API_TYPE_MAPPING, List.lookup, b1, b2, b3, b4]
    rw [hlk]
    rfl

/-- The classifier at a lower-cased type `lora`. -/
theorem classify_lower_lora (s : String) (hl : pyLower s = "lora") :
    (classify_from_metadata (some s)).1 = some "lora" := by
  unfold classify_from_metadata
  rw [show ((some s).getD "" : String) = s from rfl, hl]
  rfl

/-- The classifier at a lower-cased type `locon`. -/
theorem classify_lower_locon (s : String) (hl : pyLower s = "locon") :
    (classify_from_metadata (some s)).1 = some "lora" := by
  unfold classify_from_metadata
  rw [show ((some s).getD "" : String) = s from rfl, hl]
  rfl

/-- The classifier at a lower-cased type `dora`. -/
theorem classify_lower_dora (s : String) (hl : pyLower s = "dora") :
    (classify_from_metadata (some s)).1 = some "lora" := by
  unfold classify_from_metadata
  rw [show ((some s).getD "" : String) = s from rfl, hl]
  rfl

/-- The classifier at a lower-cased type `checkpoint`. -/
theorem classify_lower_checkpoint (s : String) (hl : pyLower s = "checkpoint") :
    (classify_from_metadata (some s)).1 = some "checkpoint" := by
  unfold classify_from_metadata
  rw [show ((some s).getD "" : String) = s from rfl, hl]
  rfl

/-- The classifier at a lower-cased type `textualinversion`. -/
theorem classify_lower_ti (s : String) (hl : pyLower s = "textualinversion") :
    (classify_from_metadata (some s)).1 = some "embedding" := by
  unfold classify_from_metadata
  rw [show ((some s).getD "" : String) = s from rfl, hl]
  rfl

/-- The classifier yields no category outside its alias table. -/
theorem classify_lower_none (s : String)
    (n1 : pyLower s ≠ "checkpoint") (n2 : pyLower s ≠ "lora")
    (n3 : pyLower s ≠ "locon") (n4 : pyLower s ≠ "dora")
    (n5 : pyLower s ≠ "textualinversion") :
    (classify_from_metadata (some s)).1 = none := by
  unfold classify_from_metadata
  rw [show ((some s).getD "" : String) = s from rfl]
  by_cases he : pyLower s = ""
  · rw [if_pos he]
  · rw [if_neg he, if_neg n1,
      if_neg (by
        rintro (h | h | h)
        · exact n2 h
        · exact n3 h
        · exact n4 h), if_neg n5]

/-- Claim C6, counterexample: the §4.2 classifier maps the LoRA-variant
alias `DoRA` to `lora`, but the scanner's API override table does not
know it — `scan_model_file` keeps the heuristic category (`checkpoint`
here) instead of overriding to `lora`, so the scanner does not use the
same alias table as the classifier. -/
theorem C6_counterexample :
    (classify_from_metadata (some "DoRA")).1 = some "lora" ∧
    scan_apply_api_type "checkpoint" (some "DoRA") = "checkpoint" ∧
    scan_apply_api_type "checkpoint" (some "DoRA") ≠ "lora" := by
  refine ⟨by decide, by decide, by decide⟩

/-- Claim C6 (amended): the scanner re-derives the category from the
provider type with its own table `LORA/LOCON → lora`,
`CHECKPOINT → checkpoint`, `TEXTUALINVERSION → embedding`
(case-insensitively), keeping the heuristic category on anything else.
That table agrees with the §4.2 classifier on every provider type string
except the classifier's third LoRA alias `dora`: a type lower-casing to
`dora` is classified `lora` by §4.2 but leaves the scanner's heuristic
category unchanged. -/
theorem C6_api_type_override :
    (∀ h s : String, pyUpper s = "LORA" ∨ pyUpper s = "LOCON" →
      scan_apply_api_type h (some s) = "lora") ∧
    (∀ h s : String, pyUpper s = "CHECKPOINT" →
      scan_apply_api_type h (some s) = "checkpoint") ∧
    (∀ h s : String, pyUpper s = "TEXTUALINVERSION" →
      scan_apply_api_type h (some s) = "embedding") ∧
    (∀ h s : String, pyUpper s ≠ "LORA" → pyUpper s ≠ "LOCON" →
      pyUpper s ≠ "CHECKPOINT" → pyUpper s ≠ "TEXTUALINVERSION" →
      scan_apply_api_type h (some s) = h) ∧
    (∀ h s : String, pyLower s ≠ "dora" →
      scan_apply_api_type h (some s)
        = ((classify_from_metadata (some s)).1.getD h)) ∧
    (∀ h s : String, pyLower s = "dora" →
      (classify_from_metadata (some s)).1 = some "lora" ∧
      scan_apply_api_type h (some s) = h) := by
  refine ⟨?_, ?_, ?_, ?_, ?_, ?_⟩
  · rintro h s (h1 | h1)
    · exact scan_apply_lora h s h1
    · exact scan_apply_locon h s h1
  · intro h s h1
    exact scan_apply_checkpoint h s h1
  · intro h s h1
    exact scan_apply_ti h s h1
  · intro h s k1 k2 k3 k4
    exact scan_apply_unknown h s k1 k2 k3 k4
  · intro h s hdora
    by_cases h1 : pyUpper s = "LORA"
    · have hl : pyLower s = "lora" :=
        (lower_of_upper s "LORA" h1).trans (by decide)
      rw [scan_apply_lora h s h1, classify_lower_lora s hl]
      rfl
    by_cases h2 : pyUpper s = "LOCON"
    · have hl : pyLower s = "locon" :=
        (lower_of_upper s "LOCON" h2).trans (by decide)
      rw [scan_apply_locon h s h2, classify_lower_locon s hl]
      rfl
    by_cases h3 : pyUpper s = "CHECKPOINT"
    · have hl : pyLower s = "checkpoint" :=
        (lower_of_upper s "CHECKPOINT" h3).trans (by decide)
      rw [scan_apply_checkpoint h s h3, classify_lower_checkpoint s hl]
      rfl
    by_cases h4 : pyUpper s = "TEXTUALINVERSION"
    · have hl : pyLower s = "textualinversion" :=
        (lower_of_upper s "TEXTUALINVERSION" h4).trans (by decide)
      rw [scan_apply_ti h s h4, classify_lower_ti s hl]
      rfl
    · have n1 : pyLower s ≠ "checkpoint" := fun hc =>
        h3 ((upper_of_lower s "checkpoint" hc).trans (by decide))
      have n2 : pyLower s ≠ "lora" := fun hc =>
        h1 ((upper_of_lower s "lora" hc).trans (by decide))
      have n3 : pyLower s ≠ "locon" := fun hc =>
        h2 ((upper_of_lower s "locon" hc).trans (by decide))
      have n5 : pyLower s ≠ "textualinversion" := fun hc =>
        h4 ((upper_of_lower s "textualinversion" hc).trans (by decide))
      rw [scan_apply_unknown h s h1 h2 h3 h4,
        classify_lower_none s n1 n2 n3 hdora n5]
      rfl
  · intro h s hdora
    have hu : pyUpper s = "DORA" :=
      (upper_of_lower s "dora" hdora).trans (by decide)
    refine ⟨classify_lower_dora s hdora, ?_⟩
    refine scan_apply_unknown h s ?_ ?_ ?_ ?_ <;> rw [hu] <;> decide

/-- Witness for the amended claim C6: the provider type `LoCon` overrides
a heuristic `checkpoint` category to `lora`. -/
theorem C6_api_type_override_witness :
    scan_apply_api_type "checkpoint" (some "LoCon") = "lora" :=
  C6_api_type_override.1 "checkpoint" "LoCon" (Or.inr (by decide))
